import Mathlib

/-!
Verification of the MarkTidy transform pipeline (src/app.py).

The Python source works on strings; here a string is shallowly embedded as a
`List Char`.  Python's whitespace and line-boundary character classes are
modelled over their ASCII members, which covers every character the
pipeline treats specially.  Each Python helper function is translated to a
Lean function of the same name; the regex substitutions of the source are
translated into explicit deterministic scanners that implement the
leftmost-match / greedy / lazy semantics of the concrete patterns used.
-/

namespace MarkTidy

/-- ASCII whitespace, the members of Python's `\s` / `str.strip` class that
the pipeline can encounter on its special-cased characters. -/
def isWs (c : Char) : Bool :=
  c == ' ' || c == '\t' || c == '\n' || c == '\r' || c == '\x0b' || c == '\x0c'

/-- Characters on which Python's `str.splitlines` breaks a line (ASCII part). -/
def isLineBreak (c : Char) : Bool :=
  c == '\n' || c == '\r' || c == '\x0b' || c == '\x0c' ||
  c == '\x1c' || c == '\x1d' || c == '\x1e'

/-- `str.strip()`: drop leading and trailing whitespace. -/
def strip (l : List Char) : List Char :=
  List.rdropWhile isWs (l.dropWhile isWs)

/-- Worker for `splitlines`: `acc` holds the current line, reversed; when
`skipNl` is set the previous character was `'\r'`, so an immediately
following `'\n'` belongs to the same `\r\n` boundary and is swallowed.
Cuts a line at every boundary, including a final line after a trailing
boundary. -/
def splitlinesAux (skipNl : Bool) (acc : List Char) : List Char → List (List Char)
  | [] => [acc.reverse]
  | c :: cs =>
    if skipNl ∧ c = '\n' then splitlinesAux false acc cs
    else if isLineBreak c then acc.reverse :: splitlinesAux (c = '\r') [] cs
    else splitlinesAux false (c :: acc) cs

/-- Python `str.splitlines()`: split at line boundaries (`\r\n` counts once),
a trailing boundary does not produce a final empty line, and the empty
string yields no lines. -/
def splitlines (l : List Char) : List (List Char) :=
  match l with
  | [] => []
  | _ =>
    let r := splitlinesAux false [] l
    match l.getLast? with
    | some c => if isLineBreak c then r.dropLast else r
    | none => r

/-- Python `"\n".join(lines)`. -/
def joinNl : List (List Char) → List Char
  | [] => []
  | l :: ls =>
    match ls with
    | [] => l
    | _ => l ++ '\n' :: joinNl ls

example : splitlines "a\nb".data = ["a".data, "b".data] := by decide
example : splitlines "a\n".data = ["a".data] := by decide
example : splitlines "a\n\n".data = ["a".data, []] := by decide
example : splitlines "\n".data = [[]] := by decide
example : splitlines "a\r\nb".data = ["a".data, "b".data] := by decide
example : joinNl ["a".data, "b".data] = "a\nb".data := by decide
example : strip "  a b\t".data = "a b".data := by decide

/-- Python `\d` on the characters the pipeline handles. -/
def isDigit (c : Char) : Bool := '0' ≤ c && c ≤ '9'

/-- The characters of the horizontal-rule class `[-*_]`. -/
def isRuleChar (c : Char) : Bool := c == '-' || c == '*' || c == '_'

/-- The class `[^0-9A-Za-z\s]` used by `fix_bold_symbol_issue`. -/
def isSymbolChar (c : Char) : Bool :=
  !(isDigit c || ('A' ≤ c && c ≤ 'Z') || ('a' ≤ c && c ≤ 'z') || isWs c)

/-- Decimal digits of `n`, most significant first (Python `str(n)`). -/
def natToCharsAux : Nat → Nat → List Char → List Char
  | 0, _, acc => acc
  | f+1, n, acc =>
    let acc' := Nat.digitChar (n % 10) :: acc
    if n < 10 then acc' else natToCharsAux f (n / 10) acc'

/-- Python `str(n)` for a natural number. -/
def natToChars (n : Nat) : List Char := natToCharsAux (n+1) n []

example : natToChars 0 = "0".data := by decide
example : natToChars 12 = "12".data := by decide

/-- The match `re.match(r"^(#+)(\s*)(.*)", line)`, returning the heading
level together with the whitespace and content groups (`None` when the line
does not begin with `#`). -/
def headingMatch (line : List Char) : Option (Nat × List Char × List Char) :=
  let hashes := line.takeWhile (fun c => c = '#')
  match hashes with
  | [] => none
  | _ =>
    let rest := line.dropWhile (fun c => c = '#')
    some (hashes.length, rest.takeWhile isWs, rest.dropWhile isWs)

example : headingMatch "## 1. B".data = some (2, " ".data, "1. B".data) := by decide
example : headingMatch "  # x".data = none := by decide

/-! ### Regex substitution scanners

Each substitution of the source is compiled to a deterministic scanner that
realises the regex engine's leftmost-match scan with the greedy/lazy
behaviour of the concrete pattern.  Scanners that jump over a match use a
fuel argument (one unit per scan step, so `length + 1` always suffices) to
stay structurally recursive. -/

/-- Lazy search for the closing two-character delimiter `a·b`: returns the
(shortest) skipped-over content and the remainder after the delimiter.
`.` does not match a newline (`re.DOTALL` unset), so the search aborts at
`'\n'`. -/
def findClose2 (a b : Char) : List Char → Option (List Char × List Char)
  | [] => none
  | x :: rest =>
    if x = a ∧ rest.head? = some b then some ([], rest.tail)
    else if x = '\n' then none
    else (findClose2 a b rest).map (fun p => (x :: p.1, p.2))

/-- Lazy search for a closing one-character delimiter `a` (no `re.DOTALL`). -/
def findClose1 (a : Char) : List Char → Option (List Char × List Char)
  | [] => none
  | x :: rest =>
    if x = a then some ([], rest)
    else if x = '\n' then none
    else (findClose1 a rest).map (fun p => (x :: p.1, p.2))

/-- `re.sub(r"DD(.*?)DD", r"\1", s)` for a doubled delimiter `D` (used with
`**`, `__`, `~~`). -/
def sub2Go (a : Char) : Nat → List Char → List Char
  | 0, l => l
  | f+1, l =>
    match l with
    | [] => []
    | c :: cs =>
      if c = a ∧ cs.head? = some a then
        match findClose2 a a cs.tail with
        | some (inn, r) => inn ++ sub2Go a f r
        | none => c :: sub2Go a f cs
      else c :: sub2Go a f cs

def sub2 (a : Char) (l : List Char) : List Char := sub2Go a (l.length + 1) l

/-- `re.sub(r"D(.*?)D", r"\1", s)` for a single-character delimiter `D`
(used with `*`, `_`, and the backquote). -/
def sub1Go (a : Char) : Nat → List Char → List Char
  | 0, l => l
  | f+1, l =>
    match l with
    | [] => []
    | c :: cs =>
      if c = a then
        match findClose1 a cs with
        | some (inn, r) => inn ++ sub1Go a f r
        | none => c :: sub1Go a f cs
      else c :: sub1Go a f cs

def sub1 (a : Char) (l : List Char) : List Char := sub1Go a (l.length + 1) l

example : sub2 '*' "**bold** and **b**".data = "bold and b".data := by decide
example : sub2 '*' "***ab".data = "***ab".data := by decide
example : sub2 '*' "***a***".data = "*a*".data := by decide
example : sub1 '_' "a_b_c".data = "abc".data := by decide

/-- Attempt of `\[([^\]]*)\]\([^)]+\)` at the current position: returns the
link text group and the remainder after the match. -/
def tryLink (l : List Char) : Option (List Char × List Char) :=
  if l.head? = some '[' then
    let cs := l.tail
    let text := cs.takeWhile (fun c => c ≠ ']')
    match cs.dropWhile (fun c => c ≠ ']') with
    | ']' :: '(' :: ds =>
      match ds.takeWhile (fun c => c ≠ ')'), ds.dropWhile (fun c => c ≠ ')') with
      | _ :: _, ')' :: es => some (text, es)
      | _, _ => none
    | _ => none
  else none

/-- `re.sub(r"\[([^\]]*)\]\([^)]+\)", r"\1", s)` (remove links, keep text). -/
def linkSubGo : Nat → List Char → List Char
  | 0, l => l
  | f+1, l =>
    match l with
    | [] => []
    | c :: cs =>
      match tryLink (c :: cs) with
      | some (text, rest) => text ++ linkSubGo f rest
      | none => c :: linkSubGo f cs

def linkSub (l : List Char) : List Char := linkSubGo (l.length + 1) l

example : linkSub "a [x](u) b".data = "a x b".data := by decide
example : linkSub "![alt](url)".data = "!alt".data := by decide
example : linkSub "[x](u".data = "[x](u".data := by decide

/-- Lazy search of `.*?\]\([^)]+\)` (the tail of the image-discard pattern):
skips to the first `](url)` whose url part is wellformed, allowing the lazy
`.*?` to extend across earlier `]` characters. -/
def imgCloseSearch : List Char → Option (List Char)
  | [] => none
  | c :: cs =>
    if c = ']' ∧ cs.head? = some '(' then
      match cs.tail.takeWhile (fun x => x ≠ ')'), cs.tail.dropWhile (fun x => x ≠ ')') with
      | _ :: _, ')' :: es => some es
      | _, _ => imgCloseSearch cs
    else imgCloseSearch cs

/-- `re.sub(r"!\[.*?\]\([^)]+\)", "", line)` (remove images, discard alt). -/
def imageSubGo : Nat → List Char → List Char
  | 0, l => l
  | f+1, l =>
    match l with
    | [] => []
    | c :: cs =>
      if c = '!' ∧ cs.head? = some '[' then
        match imgCloseSearch cs.tail with
        | some es => imageSubGo f es
        | none => c :: imageSubGo f cs
      else c :: imageSubGo f cs

def imageSub (l : List Char) : List Char := imageSubGo (l.length + 1) l

example : imageSub "x ![a](u) y".data = "x  y".data := by decide
example : imageSub "!alt".data = "!alt".data := by decide
example : imageSub "![a]b](c)".data = "".data := by decide

/-- `re.sub(r"!\[([^\]]*)\]\([^)]+\)", r"\1", s)` (clear-formatting image
removal: keep the alt text; the alt group cannot cross a `]`). -/
def imageClearGo : Nat → List Char → List Char
  | 0, l => l
  | f+1, l =>
    match l with
    | [] => []
    | c :: cs =>
      if c = '!' then
        match tryLink cs with
        | some (alt, es) => alt ++ imageClearGo f es
        | none => c :: imageClearGo f cs
      else c :: imageClearGo f cs

def imageClearSub (l : List Char) : List Char := imageClearGo (l.length + 1) l

example : imageClearSub "![img](url) x".data = "img x".data := by decide

/-- Lazy search for a closing `**` with `re.DOTALL` set (the search may
cross newlines), as in `fix_bold_symbol_issue`. -/
def findCloseStarDotall : List Char → Option (List Char × List Char)
  | [] => none
  | x :: rest =>
    if x = '*' ∧ rest.head? = some '*' then some ([], rest.tail)
    else (findCloseStarDotall rest).map (fun p => (x :: p.1, p.2))

/-- The lazy nonempty content group of `\*\*(.+?)\*\*`: at least one
character, then the closing `**`. -/
def fixBoldClose (l : List Char) : Option (List Char × List Char) :=
  match l with
  | [] => none
  | c :: cs => (findCloseStarDotall cs).map (fun p => (c :: p.1, p.2))

/-- `pattern.sub(repl, md)` of `fix_bold_symbol_issue`, where `pattern` is
`re.compile(r'\*\*(.+?)\*\*(\s*)', re.DOTALL)` and `repl` inserts one space
after the closing `**` when the content contains a character of
`[^0-9A-Za-z\s]` and no whitespace follows. -/
def fixBoldGo : Nat → List Char → List Char
  | 0, l => l
  | f+1, l =>
    match l with
    | [] => []
    | c :: cs =>
      if c = '*' ∧ cs.head? = some '*' then
        match fixBoldClose cs.tail with
        | some (inner, r) =>
          let after := r.takeWhile isWs
          if inner.any isSymbolChar ∧ after = [] then
            '*' :: '*' :: (inner ++ '*' :: '*' :: ' ' :: fixBoldGo f r)
          else
            '*' :: '*' :: (inner ++ '*' :: '*' :: (after ++ fixBoldGo f (r.dropWhile isWs)))
        | none => c :: fixBoldGo f cs
      else c :: fixBoldGo f cs

/-- `fix_bold_symbol_issue` from src/app.py. -/
def fix_bold_symbol_issue (md : List Char) : List Char :=
  fixBoldGo (md.length + 1) md

example : fix_bold_symbol_issue "**a!**x".data = "**a!** x".data := by decide
example : fix_bold_symbol_issue "**a!** x".data = "**a!** x".data := by decide
example : fix_bold_symbol_issue "**ab**x".data = "**ab**x".data := by decide
example : fix_bold_symbol_issue "**a!b**x".data = "**a!b** x".data := by decide
example : fix_bold_symbol_issue "**a!**".data = "**a!** ".data := by decide
example : fix_bold_symbol_issue "****".data = "****".data := by decide

/-- One attempt of `^\s*([-*_]){3,}\s*$` (`re.MULTILINE`) at a line-start
position of `remove_horizontal`'s `re.sub`: on success returns the consumed
(replaced) characters and the remainder.  The greedy trailing `\s*`
backtracks to the last position where `$` holds: the end of the string, or
otherwise just before the last `'\n'` of the whitespace run. -/
def hrTryMatch (s : List Char) : Option (List Char × List Char) :=
  let t1 := s.dropWhile isWs
  let run := t1.takeWhile isRuleChar
  if run.length < 3 then none
  else
    let t2 := t1.dropWhile isRuleChar
    let ws2 := t2.takeWhile isWs
    let t3 := t2.dropWhile isWs
    if t3 = [] then some (s, [])
    else
      let w2 := (ws2.reverse.takeWhile (fun c => c ≠ '\n')).reverse
      if w2.length = ws2.length then none
      else
        let ws1 := s.takeWhile isWs
        let w1 := ws2.take (ws2.length - w2.length - 1)
        some (ws1 ++ run ++ w1, '\n' :: (w2 ++ t3))

/-- `re.sub(r"^\s*([-*_]){3,}\s*$", "", output_text, flags=re.MULTILINE)`:
scan the text, attempting the pattern at every line-start position and
replacing each match by the empty string. -/
def hrSubGo : Nat → Bool → List Char → List Char
  | 0, _, l => l
  | f+1, lineStart, l =>
    match l with
    | [] => []
    | c :: cs =>
      if lineStart then
        match hrTryMatch (c :: cs) with
        | some (consumed, rest) =>
          hrSubGo f (decide (consumed.getLast? = some '\n')) rest
        | none => c :: hrSubGo f (decide (c = '\n')) cs
      else c :: hrSubGo f (decide (c = '\n')) cs

def hrSub (l : List Char) : List Char := hrSubGo (l.length + 1) true l

example : hrSub "a\n---\nb".data = "a\n\nb".data := by decide
example : hrSub "a\n---".data = "a\n".data := by decide
example : hrSub "a\n---\n".data = "a\n".data := by decide
example : hrSub "---\n---".data = "\n".data := by decide
example : hrSub "a\n--- \nb".data = "a\n\nb".data := by decide
example : hrSub "a\n--- x\nb".data = "a\n--- x\nb".data := by decide

/-! ### Line classifiers -/

/-- `re.match(r"^\d+\.\s", s)`: digits, a dot, then one whitespace char. -/
def listNumMatch (s : List Char) : Bool :=
  match s.takeWhile isDigit, s.dropWhile isDigit with
  | _ :: _, '.' :: c :: _ => isWs c
  | _, _ => false

/-- The list-item test of `remove_blank_lines_between_list_items`:
`line.strip().startswith("- ")  or … "* " … or re.match(r"^\d+\.\s", …)`. -/
def isListItemLine (l : List Char) : Bool :=
  let s := strip l
  "- ".data.isPrefixOf s || "* ".data.isPrefixOf s || listNumMatch s

/-- `re.match(r"^\s*([-*_]){3,}\s*$", line)` as a whole-line test (no
`re.MULTILINE`; the lines fed to it contain no newline). -/
def hrLineMatch (l : List Char) : Bool :=
  let t1 := l.dropWhile isWs
  let run := t1.takeWhile isRuleChar
  decide (3 ≤ run.length) && ((t1.dropWhile isRuleChar).dropWhile isWs).isEmpty

example : hrLineMatch "  --- ".data = true := by decide
example : hrLineMatch "--*-".data = true := by decide
example : hrLineMatch "--- -".data = false := by decide
example : hrLineMatch "--".data = false := by decide

/-! ### Pipeline stages -/

/-- `shift_headings`' per-line transform. -/
def shiftLine (direction : String) (line : List Char) : List Char :=
  if "#".data.isPrefixOf (strip line) then
    match headingMatch line with
    | some (level, space, content) =>
      let level' :=
        if direction = "+1" ∧ level < 6 then level + 1
        else if direction = "-1" ∧ level > 1 then level - 1
        else level
      List.replicate level' '#' ++ space ++ content
    | none => line
  else line

/-- `shift_headings` from src/app.py. -/
def shift_headings (md : List Char) (direction : String) : List Char :=
  joinNl ((splitlines md).map (shiftLine direction))

example : shift_headings "# a\n x".data "+1" = "## a\n x".data := by decide
example : shift_headings "###### a".data "+1" = "###### a".data := by decide
example : shift_headings "# a".data "-1" = "# a".data := by decide

/-- Worker of `remove_paragraph`: walk the lines with the code-block flag. -/
def rpGo : Bool → List (List Char) → List (List Char)
  | _, [] => []
  | inCode, l :: ls =>
    let s := strip l
    if "```".data.isPrefixOf s then rpGo (!inCode) ls
    else if inCode then rpGo inCode ls
    else if "#".data.isPrefixOf s || "- ".data.isPrefixOf s ||
            "* ".data.isPrefixOf s || listNumMatch s || hrLineMatch s ||
            s.isEmpty
    then l :: rpGo inCode ls
    else rpGo inCode ls

/-- `remove_paragraph` from src/app.py. -/
def remove_paragraph (md : List Char) : List Char :=
  joinNl (rpGo false (splitlines md))

/-- Worker of `extract_headings`: walk the lines with the code-block flag. -/
def ehGo : Bool → List (List Char) → List (List Char)
  | _, [] => []
  | inCode, l :: ls =>
    let s := strip l
    if "```".data.isPrefixOf s then ehGo (!inCode) ls
    else if inCode then ehGo inCode ls
    else if "#".data.isPrefixOf s then l :: ehGo inCode ls
    else ehGo inCode ls

/-- `extract_headings` from src/app.py. -/
def extract_headings (md : List Char) : List Char :=
  joinNl (ehGo false (splitlines md))

/-- `(\d+\.)` repetitions: consume as many digits-then-dot groups as
possible (the continuation of the greedy `(\d+\.)+`). -/
def consumeNumDots : Nat → List Char → List Char
  | 0, l => l
  | f+1, l =>
    match l.takeWhile isDigit, l.dropWhile isDigit with
    | _ :: _, '.' :: rest => consumeNumDots f rest
    | _, _ => l

/-- `re.sub(r"^(\d+\.)+\s*", "", content.strip())` from `number_headings`. -/
def cleanContent (content : List Char) : List Char :=
  let s := strip content
  match s.takeWhile isDigit, s.dropWhile isDigit with
  | _ :: _, '.' :: rest => (consumeNumDots rest.length rest).dropWhile isWs
  | _, _ => s

example : cleanContent "1.2. B".data = "B".data := by decide
example : cleanContent " 1. 2. x".data = "2. x".data := by decide
example : cleanContent "B".data = "B".data := by decide

/-- Python `".".join(parts)`. -/
def joinDots : List (List Char) → List Char
  | [] => []
  | l :: ls =>
    match ls with
    | [] => l
    | _ => l ++ '.' :: joinDots ls

/-- The state of `number_headings`' loop: the H2–H6 counters (`[0]*5`) and
the code-block flag. -/
structure NumState where
  counters : List Nat
  inCode : Bool
deriving DecidableEq, Repr

/-- `for i in range(level-1, 5): counters[i] = 0` on the five counters. -/
def resetCounters (counters : List Nat) (level : Nat) : List Nat :=
  counters.take (level-1) ++ List.replicate (5 - (level-1)) 0

/-- `counters[level-2] += 1`. -/
def incCounters (c1 : List Nat) (level : Nat) : List Nat :=
  c1.set (level-2) (c1.getD (level-2) 0 + 1)

/-- `[str(c) for c in counters[:level-1] if c > 0]`. -/
def numParts (c2 : List Nat) (level : Nat) : List (List Char) :=
  ((c2.take (level-1)).filter (fun c => decide (0 < c))).map natToChars

/-- `".".join(number_parts) + "."`. -/
def numberString (c2 : List Nat) (level : Nat) : List Char :=
  joinDots (numParts c2 level) ++ ['.']

/-- One iteration of `number_headings`' loop over a line. -/
def numStep (st : NumState) (line : List Char) : List Char × NumState :=
  let s := strip line
  if "```".data.isPrefixOf s then (line, ⟨st.counters, !st.inCode⟩)
  else if st.inCode then (line, st)
  else
    match headingMatch line with
    | none => (line, st)
    | some (level, space, content) =>
      if level = 1 then (line, ⟨[0, 0, 0, 0, 0], st.inCode⟩)
      else if 2 ≤ level ∧ level ≤ 6 then
        let c2 := incCounters (resetCounters st.counters level) level
        let cc := cleanContent content
        (List.replicate level '#' ++ space ++ numberString c2 level ++ ' ' :: strip cc,
         ⟨c2, st.inCode⟩)
      else (line, st)

/-- Map a stateful step over a list of lines, threading the state. -/
def mapState (f : NumState → List Char → List Char × NumState) :
    NumState → List (List Char) → List (List Char) × NumState
  | st, [] => ([], st)
  | st, l :: ls =>
    let p := f st l
    let q := mapState f p.2 ls
    (p.1 :: q.1, q.2)

/-- `number_headings` from src/app.py. -/
def number_headings (md : List Char) : List Char :=
  joinNl ((mapState numStep ⟨[0, 0, 0, 0, 0], false⟩ (splitlines md)).1)

example : number_headings "# A\n## B\n### C\n## D".data
    = "# A\n## 1. B\n### 1.1. C\n## 2. D".data := by decide
example : number_headings "```\n# x\n## y\n```".data
    = "```\n# x\n## y\n```".data := by decide

/-- `remove_blank_lines_between_list_items` from src/app.py: the first pass
computes the list-item flags of the original lines, the second drops every
blank line whose original neighbours are both list items. -/
def remove_blank_lines_between_list_items (lines : List (List Char)) :
    List (List Char) :=
  let flags := lines.map isListItemLine
  lines.enum.filterMap (fun p =>
    let prevItem := if 0 < p.1 then flags.getD (p.1 - 1) false else false
    let blank := decide (strip p.2 = [])
    let nextItem := if p.1 < lines.length - 1 then flags.getD (p.1 + 1) false
                    else false
    if blank && prevItem && nextItem then none else some p.2)

example : remove_blank_lines_between_list_items
    ["- a".data, [], "- b".data, [], "Paragraph".data]
    = ["- a".data, "- b".data, [], "Paragraph".data] := by decide

/-- The backquote character (used for fence markers and inline code). -/
def backquote : Char := Char.ofNat 96

/-- The per-line phase of `clear_markdown_format`: strip heading markers,
list markers and blockquote markers, and drop horizontal-rule lines. -/
def clearLine (line : List Char) : Option (List Char) :=
  let l1 :=
    match line with
    | '#' :: _ => (line.dropWhile (fun c => c = '#')).dropWhile isWs
    | _ => line
  let l2 :=
    let t := l1.dropWhile isWs
    match t with
    | c :: rest =>
      if c = '*' ∨ c = '-' ∨ c = '+' then
        match rest with
        | d :: _ => if isWs d then rest.dropWhile isWs else l1
        | [] => l1
      else
        match t.takeWhile isDigit, t.dropWhile isDigit with
        | _ :: _, '.' :: r2 =>
          (match r2 with
           | d :: _ => if isWs d then r2.dropWhile isWs else l1
           | [] => l1)
        | _, _ => l1
    | [] => l1
  let l3 :=
    let t := l2.dropWhile isWs
    match t with
    | '>' :: r =>
      (match r with
       | d :: r2 => if isWs d then r2 else r
       | [] => [])
    | _ => l2
  if hrLineMatch l3 then none else some l3

/-- `clear_markdown_format` from src/app.py. -/
def clear_markdown_format (md : List Char) : List Char :=
  let t := imageClearSub md
  let t := linkSub t
  let t := sub2 '*' t
  let t := sub2 '_' t
  let t := sub1 '*' t
  let t := sub1 '_' t
  let t := sub2 '~' t
  let t := sub1 backquote t
  joinNl ((splitlines t).filterMap clearLine)

example : clear_markdown_format "# Title\n**bold** and [link](url) and ![img](url)\n---".data
    = "Title\nbold and link and img".data := by decide

/-! ### The pipeline -/

/-- The option set collected by the sidebar (src/app.py lines 16–29). -/
structure OptionSet where
  clear_formatting : Bool
  remove_blank_lines : Bool
  remove_links : Bool
  remove_images : Bool
  remove_bold : Bool
  fix_bold_symbols : Bool
  remove_strikethrough : Bool
  remove_horizontal : Bool
  extract_heading : Bool
  remove_plain_text : Bool
  auto_number_headings : Bool
  heading_shift : Int
deriving DecidableEq, Repr

/-- The main processing logic of src/app.py (lines 290–341): the pipeline
from the input text and the option set to the output text. -/
def transform (input : List Char) (o : OptionSet) : List Char :=
  if strip input = [] then input
  else
    let t0 := if o.extract_heading then extract_headings input else input
    let ls0 := splitlines t0
    let ls1 := if o.remove_blank_lines then
                 remove_blank_lines_between_list_items ls0 else ls0
    let ls2 := if o.remove_bold then ls1.map (sub2 '*') else ls1
    let ls3 := if o.remove_links then ls2.map linkSub else ls2
    let ls4 := if o.remove_images then ls3.map imageSub else ls3
    let ls5 := if o.remove_strikethrough then ls4.map (sub2 '~') else ls4
    let t1 := joinNl ls5
    let t2 := if o.fix_bold_symbols then fix_bold_symbol_issue t1 else t1
    let t3 := if o.remove_horizontal then hrSub t2 else t2
    let t4 := if o.heading_shift ≠ 0 then
                let dir : String := if 0 < o.heading_shift then "+1" else "-1"
                Nat.iterate (fun s => shift_headings s dir)
                  o.heading_shift.natAbs t3
              else t3
    let t5 := if o.remove_plain_text then remove_paragraph t4 else t4
    let t6 := if o.auto_number_headings then number_headings t5 else t5
    if o.clear_formatting then clear_markdown_format t6 else t6

/-- Every boolean option off and no heading shift. -/
def allOff : OptionSet :=
  ⟨false, false, false, false, false, false, false, false, false, false, false, 0⟩

example : transform "a\nb".data allOff = "a\nb".data := by decide
example : transform "a\n".data allOff = "a".data := by decide
example : transform "  ".data allOff = "  ".data := by decide

/-- Only `clear_formatting` enabled. -/
def optsClear : OptionSet :=
  ⟨true, false, false, false, false, false, false, false, false, false, false, 0⟩

/-- Only `remove_horizontal` enabled. -/
def optsHR : OptionSet :=
  ⟨false, false, false, false, false, false, false, true, false, false, false, 0⟩

/-- Only a heading shift of `+1`. -/
def optsShiftUp1 : OptionSet :=
  ⟨false, false, false, false, false, false, false, false, false, false, false, 1⟩

/-- Only `remove_blank_lines` enabled. -/
def optsBlank : OptionSet :=
  ⟨false, true, false, false, false, false, false, false, false, false, false, 0⟩

/-- Only `auto_number_headings` enabled. -/
def optsNum : OptionSet :=
  ⟨false, false, false, false, false, false, false, false, false, false, true, 0⟩

/-- Only `remove_links` and `remove_images` enabled. -/
def optsLinkImg : OptionSet :=
  ⟨false, false, true, true, false, false, false, false, false, false, false, 0⟩

/-- The list-blank-collapse contract as the spec states it: a blank line is
removed exactly when, in the pre-collapse line sequence, the immediately
preceding and the immediately following lines are both list items. -/
def collapseSpec (lines : List (List Char)) : List (List Char) :=
  lines.enum.filterMap (fun p =>
    let blank := decide (strip p.2 = [])
    let prevItem := decide (0 < p.1) && isListItemLine (lines.getD (p.1 - 1) [])
    let nextItem := decide (p.1 + 1 < lines.length) &&
      isListItemLine (lines.getD (p.1 + 1) [])
    if blank && prevItem && nextItem then none else some p.2)

/-! ### Claim C1 -/

/-- C1 (counterexample): with every option disabled, `transform` is not the
identity on every input: the input `"a\n"` comes back as `"a"`, because the
pipeline splits the text into lines and rejoins them with `"\n"`, which
drops a trailing line terminator. -/
theorem C1_cex : transform "a\n".data allOff ≠ "a\n".data := by decide

/-- C1 (amended): with every option disabled, `transform` returns its input
unchanged for every input that is exactly the `"\n"`-join of its own lines
(no trailing line terminator and only `"\n"` separators); in general the
pipeline returns the join of the split lines. -/
theorem C1_roundtrip (input : List Char)
    (h : input = joinNl (splitlines input)) :
    transform input allOff = input := by
  unfold transform
  split
  · rfl
  · simp only [allOff]
    exact h.symm

/-- C1 witness: the round-trip theorem applied to the concrete two-line
input `"a\nb"`. -/
theorem C1_witness : transform "a\nb".data allOff = "a\nb".data :=
  C1_roundtrip "a\nb".data (by decide)

/-! ### Claim C4 -/

/-- C4 (counterexample): with only `clear_formatting` enabled the
destructive-clear scenario input does not produce the output claimed — the
claimed string has a trailing newline, while `"\n".join` of the two
remaining lines produces none. -/
theorem C4_cex :
    transform "# Title\n**bold** and [link](url) and ![img](url)\n---".data optsClear
      ≠ "Title\nbold and link and img\n".data := by decide

/-- C4 (amended): with only `clear_formatting` enabled, the input
`"# Title\n**bold** and [link](url) and ![img](url)\n---"` yields exactly
`"Title\nbold and link and img"` — heading hashes removed, bold and link
unwrapped, image replaced by its alt text, and the horizontal-rule line
dropped — with no trailing newline. -/
theorem C4_clear_scenario :
    transform "# Title\n**bold** and [link](url) and ![img](url)\n---".data optsClear
      = "Title\nbold and link and img".data := by decide

/-! ### Claim C5 -/

/-- C5 (counterexample): the heading shift stage does not emit verbatim a
`#`-line lying between two fence delimiter lines: shifting up rewrites the
fenced line `"# x"`. -/
theorem C5_cex :
    shift_headings "```\n# x\n```".data "+1" ≠ "```\n# x\n```".data := by decide

/-- C5 (amended): the heading shift stage tracks no code-fence state at all:
a `#`-line inside a fenced block is shifted like any heading, both by the
stage itself and by the full pipeline with `heading_shift = 1`. -/
theorem C5_shift_ignores_fences :
    shift_headings "```\n# x\n```".data "+1" = "```\n## x\n```".data ∧
    transform "```\n# x\n```".data optsShiftUp1 = "```\n## x\n```".data := by decide

/-! ### Claim C8 -/

/-- C8: with only `auto_number_headings` enabled, `"# A\n## B\n### C\n## D"`
transforms to `"# A\n## 1. B\n### 1.1. C\n## 2. D"`; moreover a level-1
heading line is left unchanged by the numbering step and resets all five
counters, whatever their values. -/
theorem C8_numbering_hierarchy :
    transform "# A\n## B\n### C\n## D".data optsNum
      = "# A\n## 1. B\n### 1.1. C\n## 2. D".data ∧
    ∀ cs : List Nat, numStep ⟨cs, false⟩ "# A".data
      = ("# A".data, ⟨[0, 0, 0, 0, 0], false⟩) := by
  refine ⟨by decide, fun cs => ?_⟩
  rfl

/-! ### Claim C2 -/

/-- C2 (counterexample): the bold-spacing repair inserts a space after
`"**a!b**"` in `"**a!b**x"` although the span's content ends with the
alphanumeric `'b'` — the code tests whether the content *contains* a symbol
character anywhere, not whether it *ends* with one. -/
theorem C2_cex :
    fix_bold_symbol_issue "**a!b**x".data ≠ "**a!b**x".data := by decide

lemma findCloseStarDotall_no_star (cs : List Char) (r : List Char)
    (h : ∀ c ∈ cs, c ≠ '*') :
    findCloseStarDotall (cs ++ '*' :: '*' :: r) = some (cs, r) := by
  induction cs with
  | nil => simp [findCloseStarDotall]
  | cons a cs' ih =>
    have ha : a ≠ '*' := h a (by simp)
    have ih' := ih (fun c hc => h c (by simp [hc]))
    simp [findCloseStarDotall, ha, ih']

lemma fixBoldGo_no_star (f : Nat) (l : List Char) (h : ∀ c ∈ l, c ≠ '*') :
    fixBoldGo f l = l := by
  induction f generalizing l with
  | zero => rfl
  | succ f ih =>
    match l with
    | [] => rfl
    | c :: cs =>
      have hc : c ≠ '*' := h c (by simp)
      have ih' := ih cs (fun x hx => h x (by simp [hx]))
      simp [fixBoldGo, hc, ih']

lemma fixBoldGo_succ_open (f : Nat) (l : List Char) :
    fixBoldGo (f+1) ('*' :: '*' :: l) =
      match fixBoldClose l with
      | some (inner, r) =>
        if inner.any isSymbolChar ∧ r.takeWhile isWs = [] then
          '*' :: '*' :: (inner ++ '*' :: '*' :: ' ' :: fixBoldGo f r)
        else
          '*' :: '*' :: (inner ++ '*' :: '*' ::
            (r.takeWhile isWs ++ fixBoldGo f (r.dropWhile isWs)))
      | none => '*' :: fixBoldGo f ('*' :: l) := rfl

lemma fixBoldGo_succ_close (f : Nat) (l inner r : List Char)
    (hc : fixBoldClose l = some (inner, r)) :
    fixBoldGo (f+1) ('*' :: '*' :: l)
      = if inner.any isSymbolChar ∧ r.takeWhile isWs = [] then
          '*' :: '*' :: (inner ++ '*' :: '*' :: ' ' :: fixBoldGo f r)
        else
          '*' :: '*' :: (inner ++ '*' :: '*' ::
            (r.takeWhile isWs ++ fixBoldGo f (r.dropWhile isWs))) := by
  rw [fixBoldGo_succ_open, hc]

/-- C2 (amended): the bold-spacing repair inserts exactly one space after
the closing `**` of a span `**inner**` if and only if `inner` *contains* a
non-alphanumeric non-whitespace character (anywhere, not only at its end)
and the closing `**` is followed by no whitespace; otherwise the text is
unchanged.  Stated for a span followed by star-free text. -/
theorem C2_bold_repair (inner rest : List Char) (h1 : inner ≠ [])
    (h2 : ∀ c ∈ inner, c ≠ '*') (h3 : ∀ c ∈ rest, c ≠ '*') :
    fix_bold_symbol_issue ('*' :: '*' :: inner ++ '*' :: '*' :: rest)
      = '*' :: '*' :: inner ++ '*' :: '*' ::
        (if inner.any isSymbolChar ∧ rest.takeWhile isWs = []
         then ' ' :: rest else rest) := by
  have hfc : fixBoldClose (inner ++ '*' :: '*' :: rest) = some (inner, rest) := by
    match inner, h1 with
    | c0 :: cs0, _ =>
      have hclose : findCloseStarDotall (cs0 ++ '*' :: '*' :: rest)
          = some (cs0, rest) :=
        findCloseStarDotall_no_star cs0 rest (fun c hc => h2 c (by simp [hc]))
      simp [fixBoldClose, hclose]
  unfold fix_bold_symbol_issue
  rw [show ('*' :: '*' :: inner ++ '*' :: '*' :: rest)
        = '*' :: '*' :: (inner ++ '*' :: '*' :: rest) from rfl]
  rw [fixBoldGo_succ_close _ _ inner rest hfc]
  by_cases hsym : inner.any isSymbolChar ∧ rest.takeWhile isWs = []
  · rw [if_pos hsym, if_pos hsym, fixBoldGo_no_star _ rest h3]
    rfl
  · rw [if_neg hsym, if_neg hsym,
      fixBoldGo_no_star _ (rest.dropWhile isWs)
        (fun x hx => h3 x (List.dropWhile_sublist _ |>.mem hx)),
      List.takeWhile_append_dropWhile]
    rfl

/-- C2 witness: the repair theorem applied to the span `"**a!**"` followed
by `"x"`, where the symbol `'!'` and the absent whitespace force exactly one
inserted space. -/
theorem C2_witness :
    fix_bold_symbol_issue "**a!**x".data = "**a!** x".data := by
  have h := C2_bold_repair "a!".data "x".data (by decide) (by decide) (by decide)
  rw [if_pos (by decide)] at h
  have e1 : '*' :: '*' :: "a!".data ++ '*' :: '*' :: "x".data
      = "**a!**x".data := by decide
  have e2 : '*' :: '*' :: "a!".data ++ '*' :: '*' :: ' ' :: "x".data
      = "**a!** x".data := by decide
  rw [e1, e2] at h
  exact h

/-! ### Claim C9, counterexample -/

/-- C9 (counterexample): the heading numbering stage is not idempotent on
every input: `"a\n\n"` (whose line split ends with an empty line) maps to
`"a\n"` after one application and to `"a"` after two. -/
theorem C9_cex :
    number_headings (number_headings "a\n\n".data)
      ≠ number_headings "a\n\n".data := by decide

/-! ### Claim C6 -/

/-- C6 (counterexample): a line with more than six leading `#` is *not*
passed through unchanged by the shift stage in the downward direction: the
seven-hash line loses one `#`. -/
theorem C6_cex :
    shift_headings "####### x".data "-1" ≠ "####### x".data := by decide

/-! ### Generic list decomposition lemmas -/

lemma takeWhile_append_all (p : Char → Bool) (l r : List Char)
    (hl : ∀ c ∈ l, p c = true) (hr : ∀ c, r.head? = some c → p c = false) :
    (l ++ r).takeWhile p = l := by
  induction l with
  | nil =>
    cases r with
    | nil => rfl
    | cons c cs => simp [List.takeWhile_cons, hr c rfl]
  | cons a l' ih =>
    simp [List.takeWhile_cons, hl a (by simp),
      ih (fun c hc => hl c (by simp [hc]))]

lemma dropWhile_append_all (p : Char → Bool) (l r : List Char)
    (hl : ∀ c ∈ l, p c = true) (hr : ∀ c, r.head? = some c → p c = false) :
    (l ++ r).dropWhile p = r := by
  induction l with
  | nil =>
    cases r with
    | nil => rfl
    | cons c cs => simp [List.dropWhile_cons, hr c rfl]
  | cons a l' ih =>
    simp [List.dropWhile_cons, hl a (by simp),
      ih (fun c hc => hl c (by simp [hc]))]

lemma strip_cons_of_not_ws (c : Char) (xs : List Char) (h : isWs c = false) :
    ∃ t, strip (c :: xs) = c :: t := by
  unfold strip
  rw [List.dropWhile_cons, if_neg (by simp [h])]
  rcases eq_or_ne (List.rdropWhile isWs (c :: xs)) [] with he | he
  · rw [List.rdropWhile_eq_nil_iff] at he
    exact absurd (he c (by simp)) (by simp [h])
  · obtain ⟨a, t, hat⟩ := List.exists_cons_of_ne_nil he
    refine ⟨t, ?_⟩
    have hp := List.rdropWhile_prefix isWs (c :: xs)
    rw [hat] at hp ⊢
    rw [List.cons_prefix_cons] at hp
    rw [hp.1]

/-- The heading regex on a line of the shape
`(n+1 hashes) ++ whitespace ++ content`, where the content does not start
with whitespace or `#`. -/
lemma headingMatch_decomp (n : Nat) (space content : List Char)
    (hsp : ∀ c ∈ space, isWs c = true)
    (hct : ∀ c, content.head? = some c → isWs c = false ∧ c ≠ '#') :
    headingMatch (List.replicate (n+1) '#' ++ space ++ content)
      = some (n+1, space, content) := by
  have hrest : ∀ c, (space ++ content).head? = some c → (decide (c = '#')) = false := by
    intro c hc
    cases space with
    | nil =>
      simp only [List.nil_append] at hc
      simp [(hct c hc).2]
    | cons a as =>
      simp only [List.cons_append, List.head?_cons, Option.some.injEq] at hc
      have h2 := hsp a (List.mem_cons_self a as)
      rw [← hc]
      simp only [decide_eq_false_iff_not]
      intro hcc
      rw [hcc] at h2
      exact absurd h2 (by decide)
  have hhash : ∀ c ∈ List.replicate (n+1) '#', (decide (c = '#')) = true := by
    intro c hc
    simp [List.eq_of_mem_replicate hc]
  have htake := takeWhile_append_all (fun c => decide (c = '#'))
    (List.replicate (n+1) '#') (space ++ content) hhash hrest
  have hdrop := dropWhile_append_all (fun c => decide (c = '#'))
    (List.replicate (n+1) '#') (space ++ content) hhash hrest
  have hws_take := takeWhile_append_all isWs space content hsp
    (fun c hc => (hct c hc).1)
  have hws_drop := dropWhile_append_all isWs space content hsp
    (fun c hc => (hct c hc).1)
  unfold headingMatch
  rw [List.append_assoc, htake, hdrop]
  simp only [List.replicate_succ]
  simp [hws_take, hws_drop]

/-! ### Claim C6 -/

/-- C6 (amended): a line with more than six leading `#` characters (here
`m+7` of them, followed by whitespace and content) is passed through
unchanged by the upward heading shift and by the heading numbering step
(which also leaves the numbering state untouched); the downward shift,
however, does rewrite it, removing exactly one `#`. -/
theorem C6_overlong_heading (m : Nat) (space content : List Char) (st : NumState)
    (hsp : ∀ c ∈ space, isWs c = true)
    (hct : ∀ c, content.head? = some c → isWs c = false ∧ c ≠ '#') :
    shiftLine "+1" (List.replicate (m+7) '#' ++ space ++ content)
      = List.replicate (m+7) '#' ++ space ++ content ∧
    shiftLine "-1" (List.replicate (m+7) '#' ++ space ++ content)
      = List.replicate (m+6) '#' ++ space ++ content ∧
    numStep st (List.replicate (m+7) '#' ++ space ++ content)
      = (List.replicate (m+7) '#' ++ space ++ content, st) := by
  have hmatch := headingMatch_decomp (m+6) space content hsp hct
  have hline : List.replicate (m+7) '#' ++ space ++ content
      = '#' :: (List.replicate (m+6) '#' ++ space ++ content) := by
    rw [show m+7 = (m+6)+1 from rfl, List.replicate_succ]
    simp
  obtain ⟨t, hstrip⟩ := strip_cons_of_not_ws '#'
    (List.replicate (m+6) '#' ++ space ++ content) (by decide)
  rw [← hline] at hstrip
  have hhashpre : "#".data.isPrefixOf
      (strip (List.replicate (m+7) '#' ++ space ++ content)) = true := by
    rw [hstrip]
    simp [List.isPrefixOf]
  have hfence : "```".data.isPrefixOf
      (strip (List.replicate (m+7) '#' ++ space ++ content)) = false := by
    rw [hstrip]
    simp [List.isPrefixOf]
  rw [show m+6+1 = m+7 from rfl] at hmatch
  refine ⟨?_, ?_, ?_⟩
  · unfold shiftLine
    rw [if_pos hhashpre, hmatch]
    show List.replicate
        (if "+1" = "+1" ∧ m+7 < 6 then m+7+1
         else if "+1" = "-1" ∧ m+7 > 1 then m+7-1 else m+7) '#'
        ++ space ++ content = _
    rw [if_neg (fun h => absurd h.2 (by omega)),
      if_neg (fun h => absurd h.1 (by decide))]
  · unfold shiftLine
    rw [if_pos hhashpre, hmatch]
    show List.replicate
        (if "-1" = "+1" ∧ m+7 < 6 then m+7+1
         else if "-1" = "-1" ∧ m+7 > 1 then m+7-1 else m+7) '#'
        ++ space ++ content = _
    rw [if_neg (fun h => absurd h.1 (by decide)),
      if_pos ⟨rfl, by omega⟩, show m+7-1 = m+6 by omega]
  · unfold numStep
    rw [if_neg (by rw [hfence]; exact Bool.false_ne_true), hmatch]
    cases hic : st.inCode with
    | true => simp [hic]
    | false =>
      simp only [hic, Bool.false_eq_true, if_false]
      show (if m+7 = 1 then _
            else if 2 ≤ m+7 ∧ m+7 ≤ 6 then _ else (_, st)) = _
      rw [if_neg (by omega), if_neg (fun h => absurd h.2 (by omega))]

/-! ### Claim C3, counterexample -/

/-- C3 (counterexample): with `remove_horizontal_rules` enabled, a matched
horizontal-rule line is not deleted: the output of `"a\n---\nb"` is not
`"a\nb"` (the match is replaced by the empty string, leaving an empty
line). -/
theorem C3_cex : transform "a\n---\nb".data optsHR ≠ "a\nb".data := by decide

/-- C6 witness: the overlong-heading theorem applied to the concrete line
`"####### x"` (seven hashes) and the initial numbering state. -/
theorem C6_witness :
    shiftLine "+1" "####### x".data = "####### x".data ∧
    shiftLine "-1" "####### x".data = "###### x".data ∧
    numStep ⟨[0, 0, 0, 0, 0], false⟩ "####### x".data
      = ("####### x".data, ⟨[0, 0, 0, 0, 0], false⟩) := by
  have h := C6_overlong_heading 0 " ".data "x".data ⟨[0, 0, 0, 0, 0], false⟩
    (by decide) (by decide)
  have e1 : List.replicate (0+7) '#' ++ " ".data ++ "x".data
      = "####### x".data := by decide
  have e2 : List.replicate (0+6) '#' ++ " ".data ++ "x".data
      = "###### x".data := by decide
  rw [e1, e2] at h
  exact h

lemma hrSubGo_nil (f : Nat) (b : Bool) : hrSubGo f b [] = [] := by
  cases f <;> rfl

/-- C3 (amended): with `remove_horizontal_rules` enabled, a horizontal-rule
line is not deleted as a line — the `re.MULTILINE` substitution replaces
each match of `^\s*([-*_]){3,}\s*$` by the empty string, and that match
can reach into adjacent whitespace through its greedy `\s*` ends. A rule
line lying strictly between a line ending in a non-whitespace character
and a line beginning with one is emptied in place (for any such `x`, `y`:
`"x\n---\ny"` becomes `"x\n\ny"`, an empty line where the rule was, the
line count unchanged, never `"x\ny"`); but a rule preceded by a blank line
is swallowed together with the newline before it (`"a\n\n---\nb"` becomes
`"a\n\nb"`, one line fewer), and a rule on the final line disappears up to
the preceding terminator (`"a\n---"` becomes `"a\n"`). -/
theorem C3_hr_blanked (x y : Char) (hx : isWs x = false)
    (hbx : isLineBreak x = false) (hy : isWs y = false)
    (hby : isLineBreak y = false) :
    (transform (x :: '\n' :: '-' :: '-' :: '-' :: '\n' :: [y]) optsHR
      = x :: '\n' :: '\n' :: [y]) ∧
    transform "a\n\n---\nb".data optsHR = "a\n\nb".data ∧
    transform "a\n---".data optsHR = "a\n".data := by
  refine ⟨?_, by decide, by decide⟩
  have hxn : ¬ (x = '\n') := fun h => by rw [h] at hx; exact absurd hx (by decide)
  obtain ⟨t0, ht0⟩ := strip_cons_of_not_ws x ('\n' :: '-' :: '-' :: '-' :: '\n' :: [y]) hx
  have hshort : ∀ s : List Char,
      (List.takeWhile isRuleChar (s.dropWhile isWs)).length < 3 →
      hrTryMatch s = none := by
    intro s h
    unfold hrTryMatch
    rw [if_pos h]
  have hm1 : hrTryMatch (x :: '\n' :: '-' :: '-' :: '-' :: '\n' :: [y]) = none := by
    refine hshort _ ?_
    rw [List.dropWhile_cons, if_neg (by simp [hx]), List.takeWhile_cons]
    by_cases hrx : isRuleChar x = true
    · rw [if_pos hrx,
        show List.takeWhile isRuleChar ('\n' :: '-' :: '-' :: '-' :: '\n' :: [y])
          = [] from rfl]
      simp
    · rw [if_neg (by simp [hrx])]
      simp
  have hm3 : hrTryMatch [y] = none := by
    refine hshort _ ?_
    rw [List.dropWhile_cons, if_neg (by simp [hy]), List.takeWhile_cons]
    by_cases hry : isRuleChar y = true
    · rw [if_pos hry]
      simp
    · rw [if_neg (by simp [hry])]
      simp
  have hm2 : hrTryMatch ('-' :: '-' :: '-' :: '\n' :: [y])
      = some (['-', '-', '-'], '\n' :: [y]) := by
    unfold hrTryMatch
    simp +decide [List.takeWhile_cons, List.dropWhile_cons, hy]
  have hmain : ∀ f : Nat,
      hrSubGo (f+5) true (x :: '\n' :: '-' :: '-' :: '-' :: '\n' :: [y])
        = x :: '\n' :: '\n' :: [y] := by
    intro f
    simp +decide [hrSubGo, hm1, hm2, hm3, hxn, hrSubGo_nil]
  have hsplit : splitlines (x :: '\n' :: '-' :: '-' :: '-' :: '\n' :: [y])
      = [[x], ['-', '-', '-'], [y]] := by
    unfold splitlines
    simp +decide [splitlinesAux, hbx, hby, List.getLast?_cons_cons, hby]
  unfold transform
  rw [if_neg (by rw [ht0]; simp)]
  simp only [optsHR, Bool.false_eq_true, if_false, if_true, hsplit]
  rw [show joinNl [[x], ['-', '-', '-'], [y]]
      = x :: '\n' :: '-' :: '-' :: '-' :: '\n' :: [y] by simp [joinNl]]
  show hrSub _ = _
  unfold hrSub
  rw [show (x :: '\n' :: '-' :: '-' :: '-' :: '\n' :: [y]).length + 1 = 3 + 5 by simp]
  exact hmain 3

/-- C3 witness: the blanking theorem at `x = 'a'`, `y = 'b'`. -/
theorem C3_witness : transform "a\n---\nb".data optsHR = "a\n\nb".data := by
  have h := (C3_hr_blanked 'a' 'b' (by decide) (by decide) (by decide) (by decide)).1
  have e1 : 'a' :: '\n' :: '-' :: '-' :: '-' :: '\n' :: ['b'] = "a\n---\nb".data := by decide
  have e2 : 'a' :: '\n' :: '\n' :: ['b'] = "a\n\nb".data := by decide
  rw [e1, e2] at h
  exact h

/-! ### Claim C7 -/

/-- C7: the list blank-line collapse stage removes a blank line if and only
if its immediate neighbours in the pre-collapse sequence are both list
items; and `"- a\n\n- b\n\nParagraph"` becomes `"- a\n- b\n\nParagraph"`,
the blank after the last list item surviving. -/
theorem C7_blank_collapse :
    (∀ lines, remove_blank_lines_between_list_items lines = collapseSpec lines) ∧
    transform "- a\n\n- b\n\nParagraph".data optsBlank
      = "- a\n- b\n\nParagraph".data := by
  refine ⟨fun lines => ?_, by decide⟩
  have hgetD : ∀ j, j < lines.length →
      (lines.map isListItemLine).getD j false = isListItemLine (lines.getD j []) := by
    intro j hj
    rw [List.getD_eq_getElem?_getD, List.getElem?_map, List.getD_eq_getElem?_getD,
      List.getElem?_eq_getElem hj]
    simp
  unfold remove_blank_lines_between_list_items collapseSpec
  apply List.filterMap_congr
  intro p hp
  have hlt : p.1 < lines.length := by
    rw [List.mem_enum_iff_getElem?] at hp
    obtain ⟨h, -⟩ := List.getElem?_eq_some_iff.mp hp
    exact h
  have hprev : (if 0 < p.1 then (lines.map isListItemLine).getD (p.1 - 1) false
        else false)
      = (decide (0 < p.1) && isListItemLine (lines.getD (p.1 - 1) [])) := by
    by_cases h0 : 0 < p.1
    · rw [if_pos h0, hgetD (p.1 - 1) (by omega), decide_eq_true h0, Bool.true_and]
    · rw [if_neg h0, decide_eq_false h0, Bool.false_and]
  have hnext : (if p.1 < lines.length - 1
        then (lines.map isListItemLine).getD (p.1 + 1) false else false)
      = (decide (p.1 + 1 < lines.length) &&
          isListItemLine (lines.getD (p.1 + 1) [])) := by
    by_cases h0 : p.1 < lines.length - 1
    · rw [if_pos h0, hgetD (p.1 + 1) (by omega), decide_eq_true (by omega : p.1 + 1 < lines.length),
        Bool.true_and]
    · rw [if_neg h0, decide_eq_false (by omega : ¬ p.1 + 1 < lines.length),
        Bool.false_and]
  show (if _ then none else some p.2) = (if _ then none else some p.2)
  rw [hprev, hnext]

/-! ### Claim C10 -/

lemma splitlinesAux_breakfree (l : List Char) (acc : List Char)
    (h : ∀ c ∈ l, isLineBreak c = false) :
    splitlinesAux false acc l = [acc.reverse ++ l] := by
  induction l generalizing acc with
  | nil => simp [splitlinesAux]
  | cons c cs ih =>
    have hc := h c (by simp)
    have ih' := ih (c :: acc) (fun d hd => h d (by simp [hd]))
    simp [splitlinesAux, hc, ih']

/-- A nonempty text without line-boundary characters splits into itself as
the single line. -/
lemma splitlines_single (l : List Char) (hne : l ≠ [])
    (h : ∀ c ∈ l, isLineBreak c = false) : splitlines l = [l] := by
  obtain ⟨c, cs, rfl⟩ := List.exists_cons_of_ne_nil hne
  unfold splitlines
  rw [splitlinesAux_breakfree _ _ h]
  rw [List.getLast?_eq_getLast _ (by simp)]
  have hl := h ((c :: cs).getLast (by simp)) (List.getLast_mem (by simp))
  simp [hl]

lemma tryLink_not_bracket (c : Char) (l : List Char) (h : c ≠ '[') :
    tryLink (c :: l) = none := by
  unfold tryLink
  rw [if_neg (by simp [h])]

lemma tryLink_full (alt url rest : List Char) (ha : ∀ c ∈ alt, c ≠ ']')
    (hu : url ≠ []) (hc : ∀ c ∈ url, c ≠ ')') :
    tryLink ('[' :: (alt ++ (']' :: ('(' :: (url ++ (')' :: rest))))))
      = some (alt, rest) := by
  obtain ⟨u0, us, rfl⟩ := List.exists_cons_of_ne_nil hu
  have hmem1 : ∀ c ∈ alt, (fun c => decide (c ≠ ']')) c = true := by
    intro c hcm
    simp only [decide_eq_true_eq]
    exact ha c hcm
  have hhd1 : ∀ c, (']' :: ('(' :: ((u0 :: us) ++ (')' :: rest)))).head? = some c →
      (fun c => decide (c ≠ ']')) c = false := by
    intro c hcH
    simp only [List.head?_cons, Option.some.injEq] at hcH
    subst hcH
    simp
  have hmem2 : ∀ c ∈ u0 :: us, (fun c => decide (c ≠ ')')) c = true := by
    intro c hcm
    simp only [decide_eq_true_eq]
    exact hc c hcm
  have hhd2 : ∀ c, (')' :: rest).head? = some c →
      (fun c => decide (c ≠ ')')) c = false := by
    intro c hcH
    simp only [List.head?_cons, Option.some.injEq] at hcH
    subst hcH
    simp
  have htw : (alt ++ (']' :: ('(' :: ((u0 :: us) ++ (')' :: rest))))).takeWhile
      (fun c => decide (c ≠ ']')) = alt :=
    takeWhile_append_all (fun c => decide (c ≠ ']')) alt
      (']' :: ('(' :: ((u0 :: us) ++ (')' :: rest)))) hmem1 hhd1
  have hdw : (alt ++ (']' :: ('(' :: ((u0 :: us) ++ (')' :: rest))))).dropWhile
      (fun c => decide (c ≠ ']')) = ']' :: ('(' :: ((u0 :: us) ++ (')' :: rest))) :=
    dropWhile_append_all (fun c => decide (c ≠ ']')) alt
      (']' :: ('(' :: ((u0 :: us) ++ (')' :: rest)))) hmem1 hhd1
  have htw2 : ((u0 :: us) ++ (')' :: rest)).takeWhile
      (fun c => decide (c ≠ ')')) = u0 :: us :=
    takeWhile_append_all (fun c => decide (c ≠ ')')) (u0 :: us)
      (')' :: rest) hmem2 hhd2
  have hdw2 : ((u0 :: us) ++ (')' :: rest)).dropWhile
      (fun c => decide (c ≠ ')')) = ')' :: rest :=
    dropWhile_append_all (fun c => decide (c ≠ ')')) (u0 :: us)
      (')' :: rest) hmem2 hhd2
  unfold tryLink
  rw [if_pos (by simp)]
  simp only [List.tail_cons, htw, hdw, htw2, hdw2]

lemma linkSubGo_nil (f : Nat) : linkSubGo f [] = [] := by cases f <;> rfl

lemma imageSubGo_no_bracket (f : Nat) (l : List Char)
    (h : ∀ c ∈ l, c ≠ '[') : imageSubGo f l = l := by
  induction f generalizing l with
  | zero => rfl
  | succ f ih =>
    match l with
    | [] => rfl
    | c :: cs =>
      have hno : ¬ (c = '!' ∧ cs.head? = some '[') := by
        rintro ⟨-, h2⟩
        have hmem : '[' ∈ cs := by
          cases cs with
          | nil => simp at h2
          | cons d ds =>
            simp only [List.head?_cons, Option.some.injEq] at h2
            simp [h2]
        exact (h '[' (List.mem_cons_of_mem _ hmem)) rfl
      have ih' := ih cs (fun d hd => h d (by simp [hd]))
      simp [imageSubGo, hno, ih']

/-- C10: with `remove_links` and `remove_images` both enabled, an image
`![alt](url)` is rewritten to `'!'` followed by the alt text, not to the
empty string: link removal runs first and turns `[alt](url)` into `alt`,
leaving `!alt`, which the later image substitution no longer matches. -/
theorem C10_image_order (alt url : List Char)
    (halt : ∀ c ∈ alt, c ≠ ']' ∧ c ≠ '[' ∧ isLineBreak c = false)
    (hu : url ≠ []) (hurl : ∀ c ∈ url, c ≠ ')' ∧ isLineBreak c = false) :
    transform ('!' :: '[' :: (alt ++ (']' :: ('(' :: (url ++ [')'])))))
        optsLinkImg
      = '!' :: alt ∧ ('!' :: alt : List Char) ≠ [] := by
  refine ⟨?_, by simp⟩
  obtain ⟨t0, ht0⟩ := strip_cons_of_not_ws '!'
    ('[' :: (alt ++ (']' :: ('(' :: (url ++ [')']))))) (by decide)
  have hbf : ∀ c ∈ '!' :: '[' :: (alt ++ (']' :: ('(' :: (url ++ [')'])))),
      isLineBreak c = false := by
    intro c hcm
    simp only [List.mem_cons, List.mem_append, List.mem_singleton] at hcm
    have hdis : c = '!' ∨ c = '[' ∨ c ∈ alt ∨ c = ']' ∨ c = '(' ∨ c ∈ url ∨
        c = ')' := by tauto
    rcases hdis with rfl | rfl | hcm2 | rfl | rfl | hcm2 | rfl
    · rfl
    · rfl
    · exact (halt c hcm2).2.2
    · rfl
    · rfl
    · exact (hurl c hcm2).2
    · rfl
  have hsplit := splitlines_single _ (by simp) hbf
  have hlink : linkSub ('!' :: '[' :: (alt ++ (']' :: ('(' :: (url ++ [')'])))))
      = '!' :: alt := by
    have h1 : tryLink ('!' :: '[' :: (alt ++ (']' :: ('(' :: (url ++ [')'])))))
        = none := tryLink_not_bracket '!' _ (by decide)
    have h2 : tryLink ('[' :: (alt ++ (']' :: ('(' :: (url ++ (')' :: []))))))
        = some (alt, []) :=
      tryLink_full alt url [] (fun c hcm => (halt c hcm).1) hu
        (fun c hcm => (hurl c hcm).1)
    have hmain : ∀ f, linkSubGo (f+2)
        ('!' :: '[' :: (alt ++ (']' :: ('(' :: (url ++ [')'])))))
        = '!' :: alt := by
      intro f
      simp only [linkSubGo, h1, h2, linkSubGo_nil]
      simp
    unfold linkSub
    rw [show ('!' :: '[' :: (alt ++ (']' :: ('(' :: (url ++ [')']))))).length + 1
        = (alt.length + url.length + 4) + 2 by
      simp [List.length_cons, List.length_append]
      omega]
    exact hmain _
  have himg : imageSub ('!' :: alt) = '!' :: alt := by
    unfold imageSub
    refine imageSubGo_no_bracket _ _ ?_
    intro c hcm
    simp only [List.mem_cons] at hcm
    rcases hcm with rfl | hcm2
    · decide
    · exact (halt c hcm2).2.1
  unfold transform
  rw [if_neg (by rw [ht0]; simp)]
  simp only [optsLinkImg, Bool.false_eq_true, Bool.true_eq_false, if_false, if_true,
    hsplit, List.map_cons, List.map_nil, hlink, himg]
  rfl

/-- C10 witness: the theorem at `alt = "img"`, `url = "url"`, i.e. the line
`"![img](url)"` becomes `"!img"`. -/
theorem C10_witness :
    transform "![img](url)".data optsLinkImg = "!img".data ∧
    ("!img".data : List Char) ≠ [] := by
  have h := C10_image_order "img".data "url".data (by decide) (by decide) (by decide)
  have e1 : '!' :: '[' :: ("img".data ++ (']' :: ('(' :: ("url".data ++ [')']))))
      = "![img](url)".data := by decide
  have e2 : '!' :: "img".data = "!img".data := by decide
  rw [e1, e2] at h
  exact h

/-! ### Claim C9: helper lemmas about `strip` -/

lemma dropWhile_head_false (p : Char → Bool) (l : List Char) (c : Char)
    (t : List Char) (h : l.dropWhile p = c :: t) : p c = false := by
  induction l with
  | nil => simp at h
  | cons a as ih =>
    rw [List.dropWhile_cons] at h
    by_cases hpa : p a = true
    · rw [if_pos hpa] at h
      exact ih h
    · rw [if_neg hpa] at h
      injection h with h1 _
      rw [← h1]
      simpa using hpa

lemma strip_head_false (l : List Char) (c : Char) (t : List Char)
    (h : strip l = c :: t) : isWs c = false := by
  unfold strip at h
  have hpre := List.rdropWhile_prefix (p := isWs) (l := l.dropWhile isWs)
  rw [h] at hpre
  obtain ⟨s, hs⟩ := hpre
  have hdw : l.dropWhile isWs = c :: (t ++ s) := by rw [← hs]; rfl
  exact dropWhile_head_false isWs l c (t ++ s) hdw

lemma strip_head?_false (l : List Char) (c : Char)
    (h : (strip l).head? = some c) : isWs c = false := by
  cases hs : strip l with
  | nil => rw [hs] at h; simp at h
  | cons a t =>
    rw [hs] at h
    simp only [List.head?_cons, Option.some.injEq] at h
    rw [← h]
    exact strip_head_false l a t hs

lemma strip_last?_false (l : List Char) (c : Char)
    (h : (strip l).getLast? = some c) : isWs c = false := by
  have hne : strip l ≠ [] := by
    intro h0
    rw [h0] at h
    simp at h
  have h2 := List.rdropWhile_last_not (p := isWs) (l := l.dropWhile isWs) hne
  rw [List.getLast?_eq_getLast _ hne] at h
  injection h with h1
  rw [← h1]
  simpa using h2

lemma strip_eq_self (l : List Char)
    (h1 : ∀ c, l.head? = some c → isWs c = false)
    (h2 : ∀ c, l.getLast? = some c → isWs c = false) : strip l = l := by
  cases l with
  | nil => rfl
  | cons a as =>
    have ha := h1 a rfl
    unfold strip
    rw [List.dropWhile_cons, if_neg (by simp [ha])]
    rw [List.rdropWhile_eq_self_iff]
    intro hl
    have h3 := h2 ((a :: as).getLast hl) (List.getLast?_eq_getLast _ hl)
    simp [h3]

lemma strip_idem (l : List Char) : strip (strip l) = strip l :=
  strip_eq_self (strip l) (fun c hc => strip_head?_false l c hc)
    (fun c hc => strip_last?_false l c hc)

lemma rdropWhile_eq_self_of_getLast? (p : Char → Bool) (l : List Char) (c : Char)
    (h : l.getLast? = some c) (hc : p c = false) : List.rdropWhile p l = l := by
  rw [List.rdropWhile_eq_self_iff]
  intro hl
  rw [List.getLast?_eq_getLast _ hl] at h
  injection h with h1
  rw [h1, hc]
  simp

/-! ### Claim C9: helper lemmas about digits and number strings -/

lemma digitChar_isDigit (m : Nat) (h : m < 10) : isDigit (Nat.digitChar m) = true := by
  interval_cases m <;> decide

lemma natToCharsAux_digits (f : Nat) : ∀ n acc, (∀ c ∈ acc, isDigit c = true) →
    ∀ c ∈ natToCharsAux f n acc, isDigit c = true := by
  induction f with
  | zero => intro n acc hacc c hc; exact hacc c hc
  | succ f ih =>
    intro n acc hacc c hc
    simp only [natToCharsAux] at hc
    have hacc' : ∀ d ∈ Nat.digitChar (n % 10) :: acc, isDigit d = true := by
      intro d hd
      rcases List.mem_cons.mp hd with rfl | hd2
      · exact digitChar_isDigit _ (Nat.mod_lt _ (by omega))
      · exact hacc d hd2
    by_cases hn : n < 10
    · rw [if_pos hn] at hc
      exact hacc' c hc
    · rw [if_neg hn] at hc
      exact ih (n / 10) _ hacc' c hc

lemma natToChars_digits (n : Nat) : ∀ c ∈ natToChars n, isDigit c = true :=
  natToCharsAux_digits (n+1) n [] (by simp)

lemma natToCharsAux_ne_nil (f : Nat) : ∀ n acc, acc ≠ [] →
    natToCharsAux f n acc ≠ [] := by
  induction f with
  | zero => intro n acc hacc; exact hacc
  | succ f ih =>
    intro n acc hacc
    simp only [natToCharsAux]
    by_cases hn : n < 10
    · rw [if_pos hn]
      simp
    · rw [if_neg hn]
      exact ih (n / 10) _ (by simp)

lemma natToChars_ne_nil (n : Nat) : natToChars n ≠ [] := by
  unfold natToChars
  simp only [natToCharsAux]
  by_cases hn : n < 10
  · rw [if_pos hn]
    simp
  · rw [if_neg hn]
    exact natToCharsAux_ne_nil n (n / 10) _ (by simp)

lemma isDigit_not_ws (c : Char) (h : isDigit c = true) : isWs c = false := by
  by_contra hw
  have hw2 : isWs c = true := by
    cases hb : isWs c
    · exact absurd hb hw
    · rfl
  simp only [isWs, Bool.or_eq_true, beq_iff_eq] at hw2
  simp only [isDigit, Bool.and_eq_true, decide_eq_true_eq] at h
  rcases hw2 with ((((rfl | rfl) | rfl) | rfl) | rfl) | rfl <;>
    exact absurd h (by decide)

lemma isDigit_ne_hash (c : Char) (h : isDigit c = true) : c ≠ '#' := by
  intro hc
  rw [hc] at h
  exact absurd h (by decide)

lemma isDigit_not_break (c : Char) (h : isDigit c = true) : isLineBreak c = false := by
  by_contra hw
  have hw2 : isLineBreak c = true := by
    cases hb : isLineBreak c
    · exact absurd hb hw
    · rfl
  simp only [isLineBreak, Bool.or_eq_true, beq_iff_eq] at hw2
  simp only [isDigit, Bool.and_eq_true, decide_eq_true_eq] at h
  rcases hw2 with (((((rfl | rfl) | rfl) | rfl) | rfl) | rfl) | rfl <;>
    exact absurd h (by decide)

/-! ### Claim C9: the number prefix and its re-stripping -/

lemma joinDots_append_dot (parts : List (List Char)) (hp : parts ≠ []) :
    joinDots parts ++ ['.'] = (parts.map (fun b => b ++ ['.'])).flatten := by
  induction parts with
  | nil => exact absurd rfl hp
  | cons p ps ih =>
    cases ps with
    | nil => simp [joinDots]
    | cons q qs =>
      have ih' := ih (by simp)
      simp only [joinDots, List.map_cons, List.flatten_cons] at ih' ⊢
      rw [← ih']
      simp [List.append_assoc]

lemma flatten_blocks_length (bs : List (List Char)) :
    bs.length ≤ ((bs.map (fun b => b ++ ['.'])).flatten).length := by
  induction bs with
  | nil => simp
  | cons b bs' ih =>
    simp only [List.map_cons, List.flatten_cons, List.length_append, List.length_cons]
    omega

lemma consumeNumDots_stop (fuel : Nat) (r : List Char)
    (hr : r.takeWhile isDigit = []) : consumeNumDots fuel r = r := by
  cases fuel with
  | zero => rfl
  | succ f =>
    simp only [consumeNumDots, hr]

lemma consumeNumDots_blocks (bs : List (List Char)) (r : List Char) :
    ∀ fuel, bs.length ≤ fuel →
    (∀ b ∈ bs, b ≠ [] ∧ ∀ c ∈ b, isDigit c = true) →
    r.takeWhile isDigit = [] →
    consumeNumDots fuel ((bs.map (fun b => b ++ ['.'])).flatten ++ r) = r := by
  induction bs with
  | nil =>
    intro fuel _ _ hr
    simp only [List.map_nil, List.flatten_nil, List.nil_append]
    exact consumeNumDots_stop fuel r hr
  | cons b bs' ih =>
    intro fuel hf hb hr
    obtain ⟨b0, bt, rfl⟩ := List.exists_cons_of_ne_nil (hb b (by simp)).1
    cases fuel with
    | zero => simp at hf
    | succ f =>
      have hdig : ∀ c ∈ b0 :: bt, isDigit c = true := (hb _ (by simp)).2
      have hshape : ((((b0 :: bt) ++ ['.']) :: (bs'.map (fun b => b ++ ['.']))).flatten ++ r)
          = (b0 :: bt) ++ ('.' :: ((bs'.map (fun b => b ++ ['.'])).flatten ++ r)) := by
        simp [List.append_assoc]
      have hhd : ∀ c : Char,
          ('.' :: ((bs'.map (fun b => b ++ ['.'])).flatten ++ r)).head? = some c →
          isDigit c = false := by
        intro c hc
        simp only [List.head?_cons, Option.some.injEq] at hc
        rw [← hc]
        decide
      have htk := takeWhile_append_all isDigit (b0 :: bt)
        ('.' :: ((bs'.map (fun b => b ++ ['.'])).flatten ++ r)) hdig hhd
      have hdr := dropWhile_append_all isDigit (b0 :: bt)
        ('.' :: ((bs'.map (fun b => b ++ ['.'])).flatten ++ r)) hdig hhd
      rw [List.map_cons, hshape]
      simp only [consumeNumDots, htk, hdr]
      exact ih f (by simpa using Nat.le_of_succ_le_succ hf)
        (fun b2 hb2 => hb b2 (by simp [hb2])) hr

lemma cleanContent_numPre (parts : List (List Char)) (d : List Char)
    (hp : parts ≠ [])
    (hparts : ∀ b ∈ parts, b ≠ [] ∧ ∀ c ∈ b, isDigit c = true)
    (hd : strip d = d) :
    cleanContent ((joinDots parts ++ ['.']) ++ (' ' :: d)) = d := by
  obtain ⟨p, ps, rfl⟩ := List.exists_cons_of_ne_nil hp
  obtain ⟨p0, pt, rfl⟩ := List.exists_cons_of_ne_nil (hparts p (by simp)).1
  have hpdig : ∀ c ∈ p0 :: pt, isDigit c = true := (hparts _ (by simp)).2
  have hP := joinDots_append_dot ((p0 :: pt) :: ps) (by simp)
  have hPshape : (joinDots ((p0 :: pt) :: ps) ++ ['.']) ++ (' ' :: d)
      = (p0 :: pt) ++ ('.' :: ((ps.map (fun b => b ++ ['.'])).flatten ++ (' ' :: d))) := by
    rw [hP]
    simp [List.append_assoc]
  cases d with
  | nil =>
    have hstrip : strip ((joinDots ((p0 :: pt) :: ps) ++ ['.']) ++ (' ' :: ([] : List Char)))
        = joinDots ((p0 :: pt) :: ps) ++ ['.'] := by
      unfold strip
      have hdwx : ((joinDots ((p0 :: pt) :: ps) ++ ['.']) ++ (' ' :: ([] : List Char))).dropWhile isWs
          = (joinDots ((p0 :: pt) :: ps) ++ ['.']) ++ (' ' :: ([] : List Char)) := by
        have : (joinDots ((p0 :: pt) :: ps) ++ ['.']) ++ (' ' :: ([] : List Char))
            = p0 :: (pt ++ ('.' :: ((ps.map (fun b => b ++ ['.'])).flatten ++ (' ' :: ([] : List Char))))) := by
          rw [hPshape]
          rfl
        rw [this, List.dropWhile_cons,
          if_neg (by simp [isDigit_not_ws p0 (hpdig p0 (by simp))])]
      rw [hdwx]
      rw [show (joinDots ((p0 :: pt) :: ps) ++ ['.']) ++ (' ' :: ([] : List Char))
          = (joinDots ((p0 :: pt) :: ps) ++ ['.']) ++ [' '] from rfl]
      rw [List.rdropWhile_concat_pos _ _ _ (by decide)]
      exact rdropWhile_eq_self_of_getLast? isWs _ '.' (by simp) (by decide)
    unfold cleanContent
    rw [hstrip]
    have hPshape2 : joinDots ((p0 :: pt) :: ps) ++ ['.']
        = (p0 :: pt) ++ ('.' :: (ps.map (fun b => b ++ ['.'])).flatten) := by
      rw [hP]
      simp [List.append_assoc]
    have hhd : ∀ c : Char,
        ('.' :: (ps.map (fun b => b ++ ['.'])).flatten).head? = some c →
        isDigit c = false := by
      intro c hc
      simp only [List.head?_cons, Option.some.injEq] at hc
      rw [← hc]
      decide
    have hcd : consumeNumDots ((ps.map (fun b => b ++ ['.'])).flatten).length
        ((ps.map (fun b => b ++ ['.'])).flatten) = [] := by
      have := consumeNumDots_blocks ps []
        ((ps.map (fun b => b ++ ['.'])).flatten).length
        (le_trans (flatten_blocks_length ps) (le_refl _))
        (fun b2 hb2 => hparts b2 (by simp [hb2])) (by rfl)
      simpa using this
    have htkn := takeWhile_append_all isDigit (p0 :: pt)
      ('.' :: (ps.map (fun b => b ++ ['.'])).flatten) hpdig hhd
    have hdrn := dropWhile_append_all isDigit (p0 :: pt)
      ('.' :: (ps.map (fun b => b ++ ['.'])).flatten) hpdig hhd
    simp only [List.cons_append] at htkn hdrn hPshape2
    simp only [hPshape2, htkn, hdrn, hcd]
    rfl
  | cons d0 dt =>
    have hd0 : isWs d0 = false := strip_head?_false (d0 :: dt) d0 (by rw [hd]; rfl)
    have hstrip : strip ((joinDots ((p0 :: pt) :: ps) ++ ['.']) ++ (' ' :: d0 :: dt))
        = (joinDots ((p0 :: pt) :: ps) ++ ['.']) ++ (' ' :: d0 :: dt) := by
      apply strip_eq_self
      · intro c hc
        rw [hPshape] at hc
        simp only [List.cons_append, List.head?_cons, Option.some.injEq] at hc
        rw [← hc]
        exact isDigit_not_ws p0 (hpdig p0 (by simp))
      · intro c hc
        rw [List.getLast?_append_of_ne_nil _ (by simp)] at hc
        rw [show (' ' :: d0 :: dt).getLast? = (d0 :: dt).getLast? from
          List.getLast?_cons_cons ..] at hc
        exact strip_last?_false (d0 :: dt) c (by rw [hd]; exact hc)
    unfold cleanContent
    rw [hstrip]
    have hhd : ∀ c : Char,
        ('.' :: ((ps.map (fun b => b ++ ['.'])).flatten ++ (' ' :: d0 :: dt))).head? = some c →
        isDigit c = false := by
      intro c hc
      simp only [List.head?_cons, Option.some.injEq] at hc
      rw [← hc]
      decide
    have hcd := consumeNumDots_blocks ps (' ' :: d0 :: dt)
      ((ps.map (fun b => b ++ ['.'])).flatten ++ (' ' :: d0 :: dt)).length
      (by
        have h1 := flatten_blocks_length ps
        simp only [List.length_append]
        omega)
      (fun b2 hb2 => hparts b2 (by simp [hb2]))
      (by rw [List.takeWhile_cons, if_neg (by decide)])
    have htkn := takeWhile_append_all isDigit (p0 :: pt)
      ('.' :: ((ps.map (fun b => b ++ ['.'])).flatten ++ (' ' :: d0 :: dt))) hpdig hhd
    have hdrn := dropWhile_append_all isDigit (p0 :: pt)
      ('.' :: ((ps.map (fun b => b ++ ['.'])).flatten ++ (' ' :: d0 :: dt))) hpdig hhd
    simp only [List.cons_append] at htkn hdrn hPshape
    simp only [hPshape, htkn, hdrn, hcd]
    rw [List.dropWhile_cons, if_pos (by decide), List.dropWhile_cons,
      if_neg (by simp [hd0])]

/-! ### Claim C9: the shape of one numbering step -/

lemma numStep_fence (st : NumState) (l : List Char)
    (hfence : "```".data.isPrefixOf (strip l) = true) :
    numStep st l = (l, ⟨st.counters, !st.inCode⟩) := by
  unfold numStep
  rw [if_pos hfence]

lemma numStep_inCode (st : NumState) (l : List Char)
    (hfence : "```".data.isPrefixOf (strip l) = false)
    (hic : st.inCode = true) :
    numStep st l = (l, st) := by
  unfold numStep
  rw [if_neg (by simp [hfence]), if_pos hic]

lemma numStep_nomatch (st : NumState) (l : List Char)
    (hfence : "```".data.isPrefixOf (strip l) = false)
    (hic : st.inCode = false) (hm : headingMatch l = none) :
    numStep st l = (l, st) := by
  unfold numStep
  rw [if_neg (by simp [hfence]), if_neg (by simp [hic]), hm]

lemma numStep_lvl1 (st : NumState) (l : List Char) (level : Nat)
    (space content : List Char)
    (hfence : "```".data.isPrefixOf (strip l) = false)
    (hic : st.inCode = false)
    (hm : headingMatch l = some (level, space, content)) (hl1 : level = 1) :
    numStep st l = (l, ⟨[0, 0, 0, 0, 0], st.inCode⟩) := by
  unfold numStep
  rw [if_neg (by simp [hfence]), if_neg (by simp [hic]), hm]
  show (if level = 1 then _ else _) = _
  rw [if_pos hl1]

lemma numStep_overlong (st : NumState) (l : List Char) (level : Nat)
    (space content : List Char)
    (hfence : "```".data.isPrefixOf (strip l) = false)
    (hic : st.inCode = false)
    (hm : headingMatch l = some (level, space, content)) (hl1 : level ≠ 1)
    (hrange : ¬ (2 ≤ level ∧ level ≤ 6)) :
    numStep st l = (l, st) := by
  unfold numStep
  rw [if_neg (by simp [hfence]), if_neg (by simp [hic]), hm]
  show (if level = 1 then _ else if 2 ≤ level ∧ level ≤ 6 then _ else _) = _
  rw [if_neg hl1, if_neg hrange]

lemma numStep_heading (st : NumState) (l : List Char) (level : Nat)
    (space content : List Char)
    (hfence : "```".data.isPrefixOf (strip l) = false)
    (hic : st.inCode = false)
    (hm : headingMatch l = some (level, space, content))
    (hl1 : level ≠ 1) (hrange : 2 ≤ level ∧ level ≤ 6) :
    numStep st l = (List.replicate level '#' ++ space ++
        numberString (incCounters (resetCounters st.counters level) level) level ++
        ' ' :: strip (cleanContent content),
      ⟨incCounters (resetCounters st.counters level) level, st.inCode⟩) := by
  unfold numStep
  rw [if_neg (by simp [hfence]), if_neg (by simp [hic]), hm]
  show (if level = 1 then _ else if 2 ≤ level ∧ level ≤ 6 then _ else _) = _
  rw [if_neg hl1, if_pos hrange]

/-! ### Claim C9: counters facts -/

lemma resetCounters_length (counters : List Nat) (level : Nat)
    (h : counters.length = 5) (hr : level ≤ 6) :
    (resetCounters counters level).length = 5 := by
  unfold resetCounters
  simp only [List.length_append, List.length_take, List.length_replicate, h]
  omega

lemma incCounters_length (c1 : List Nat) (level : Nat) :
    (incCounters c1 level).length = c1.length := by
  unfold incCounters
  simp

lemma incCounters_getD_pos (c1 : List Nat) (level : Nat)
    (h : level - 2 < c1.length) :
    0 < (incCounters c1 level).getD (level-2) 0 := by
  unfold incCounters
  rw [List.getD_eq_getElem?_getD, List.getElem?_set_self']
  simp [List.getElem?_eq_getElem h]

lemma numParts_facts (c2 : List Nat) (level : Nat) :
    ∀ b ∈ numParts c2 level, b ≠ [] ∧ ∀ c ∈ b, isDigit c = true := by
  intro b hb
  unfold numParts at hb
  obtain ⟨n, -, rfl⟩ := List.mem_map.mp hb
  exact ⟨natToChars_ne_nil n, natToChars_digits n⟩

lemma numParts_ne_nil (c2 : List Nat) (level : Nat) (hlen : c2.length = 5)
    (hrange : 2 ≤ level ∧ level ≤ 6) (hpos : 0 < c2.getD (level-2) 0) :
    numParts c2 level ≠ [] := by
  have hidx : level - 2 < c2.length := by omega
  have h2 : level - 2 < (c2.take (level-1)).length := by
    simp only [List.length_take]
    omega
  have h3 : (c2.take (level-1)).get ⟨level-2, h2⟩ = c2.get ⟨level-2, hidx⟩ := by
    simp [List.getElem_take]
  have h4 : c2.get ⟨level-2, hidx⟩ ∈ c2.take (level-1) := by
    rw [← h3]
    exact List.get_mem _ _ h2
  have h5 : c2.get ⟨level-2, hidx⟩ = c2.getD (level-2) 0 := by
    rw [List.getD_eq_getElem?_getD, List.getElem?_eq_getElem hidx]
    rfl
  unfold numParts
  apply List.ne_nil_of_mem (a := natToChars (c2.getD (level-2) 0))
  apply List.mem_map_of_mem
  apply List.mem_filter.mpr
  refine ⟨by rw [← h5]; exact h4, by simpa using hpos⟩

lemma joinDots_dot_head (parts : List (List Char)) (X : List Char)
    (hp : parts ≠ []) (hparts : ∀ b ∈ parts, b ≠ [] ∧ ∀ c ∈ b, isDigit c = true) :
    ∀ c, ((joinDots parts ++ ['.']) ++ X).head? = some c → isDigit c = true := by
  obtain ⟨p, ps, rfl⟩ := List.exists_cons_of_ne_nil hp
  obtain ⟨p0, pt, rfl⟩ := List.exists_cons_of_ne_nil (hparts p (by simp)).1
  intro c hc
  cases ps with
  | nil =>
    simp only [joinDots, List.cons_append, List.head?_cons, Option.some.injEq] at hc
    rw [← hc]
    exact (hparts (p0 :: pt) (by simp)).2 p0 (by simp)
  | cons q qs =>
    simp only [joinDots, List.cons_append, List.head?_cons, Option.some.injEq] at hc
    rw [← hc]
    exact (hparts (p0 :: pt) (by simp)).2 p0 (by simp)

lemma headingMatch_space_ws (l : List Char) (level : Nat) (space content : List Char)
    (hm : headingMatch l = some (level, space, content)) :
    ∀ c ∈ space, isWs c = true := by
  unfold headingMatch at hm
  cases htk : l.takeWhile (fun c => decide (c = '#')) with
  | nil => rw [htk] at hm; simp at hm
  | cons a t =>
    rw [htk] at hm
    simp only [Option.some.injEq, Prod.mk.injEq] at hm
    intro c hc
    rw [← hm.2.1] at hc
    exact List.mem_takeWhile_imp hc

/-! ### Claim C9: pointwise stability of the numbering step -/

lemma numStep_stable (st : NumState) (l : List Char)
    (hlen : st.counters.length = 5) :
    numStep st ((numStep st l).1) = numStep st l := by
  by_cases hfence : "```".data.isPrefixOf (strip l) = true
  · have h1 := numStep_fence st l hfence
    rw [h1]
    simpa using h1
  · have hfence' : "```".data.isPrefixOf (strip l) = false :=
      Bool.eq_false_iff.mpr hfence
    by_cases hic : st.inCode = true
    · have h1 := numStep_inCode st l hfence' hic
      rw [h1]
      simpa using h1
    · have hic' : st.inCode = false := Bool.eq_false_iff.mpr hic
      cases hm : headingMatch l with
      | none =>
        have h1 := numStep_nomatch st l hfence' hic' hm
        rw [h1]
        simpa using h1
      | some triple =>
        obtain ⟨level, space, content⟩ := triple
        by_cases hl1 : level = 1
        · have h1 := numStep_lvl1 st l level space content hfence' hic' hm hl1
          rw [h1]
          simpa using h1
        · by_cases hrange : 2 ≤ level ∧ level ≤ 6
          · have hsp := headingMatch_space_ws l level space content hm
            have hlen2 : (incCounters (resetCounters st.counters level) level).length = 5 := by
              rw [incCounters_length,
                resetCounters_length st.counters level hlen (by omega)]
            have hpos : 0 < (incCounters (resetCounters st.counters level) level).getD
                (level-2) 0 :=
              incCounters_getD_pos _ level
                (by rw [resetCounters_length st.counters level hlen (by omega)]; omega)
            have hpne := numParts_ne_nil _ level hlen2 hrange hpos
            have hpfacts := numParts_facts
              (incCounters (resetCounters st.counters level) level) level
            have h1 := numStep_heading st l level space content hfence' hic' hm hl1 hrange
            set c2 := incCounters (resetCounters st.counters level) level with hc2
            set d := strip (cleanContent content) with hdd
            set l' := List.replicate level '#' ++ space ++ numberString c2 level ++
              ' ' :: d with hl'
            have hsd : strip d = d := by
              rw [hdd]
              exact strip_idem _
            have hrep : List.replicate level '#' = '#' :: List.replicate (level-1) '#' := by
              conv_lhs => rw [show level = (level-1)+1 by omega]
              rw [List.replicate_succ]
            have hlshape : l' = '#' :: (List.replicate (level-1) '#' ++ space ++
                numberString c2 level ++ ' ' :: d) := by
              rw [hl', hrep]
              simp [List.cons_append, List.append_assoc]
            obtain ⟨t1, hstrip1⟩ := strip_cons_of_not_ws '#'
              (List.replicate (level-1) '#' ++ space ++ numberString c2 level ++ ' ' :: d)
              (by decide)
            rw [← hlshape] at hstrip1
            have hfence2 : "```".data.isPrefixOf (strip l') = false := by
              rw [hstrip1]
              simp [List.isPrefixOf]
            have hct : ∀ c, (numberString c2 level ++ (' ' :: d)).head? = some c →
                isWs c = false ∧ c ≠ '#' := by
              intro c hc
              rw [show numberString c2 level = joinDots (numParts c2 level) ++ ['.']
                from rfl] at hc
              have hdig := joinDots_dot_head (numParts c2 level) (' ' :: d)
                hpne hpfacts c hc
              exact ⟨isDigit_not_ws c hdig, isDigit_ne_hash c hdig⟩
            have hm2 : headingMatch l' = some (level, space,
                numberString c2 level ++ (' ' :: d)) := by
              have hdec := headingMatch_decomp (level-1) space
                (numberString c2 level ++ (' ' :: d)) hsp hct
              rw [show (level-1)+1 = level by omega] at hdec
              rw [← List.append_assoc] at hdec
              rw [← hl'] at hdec
              exact hdec
            have h2 := numStep_heading st l' level space
              (numberString c2 level ++ (' ' :: d)) hfence2 hic' hm2 hl1 hrange
            have hclean : cleanContent (numberString c2 level ++ (' ' :: d)) = d := by
              have hcn := cleanContent_numPre (numParts c2 level) d hpne hpfacts hsd
              rw [show numberString c2 level = joinDots (numParts c2 level) ++ ['.']
                from rfl]
              exact hcn
            rw [h1]
            show numStep st l' = _
            rw [h2, hclean, hsd]
          · have h1 := numStep_overlong st l level space content hfence' hic' hm hl1 hrange
            rw [h1]
            simpa using h1

/-! ### Claim C9: invariants of the numbering step -/

lemma numStep_counters_len (st : NumState) (l : List Char)
    (hlen : st.counters.length = 5) :
    ((numStep st l).2).counters.length = 5 := by
  by_cases hfence : "```".data.isPrefixOf (strip l) = true
  · rw [numStep_fence st l hfence]
    exact hlen
  · have hfence' : "```".data.isPrefixOf (strip l) = false :=
      Bool.eq_false_iff.mpr hfence
    by_cases hic : st.inCode = true
    · rw [numStep_inCode st l hfence' hic]
      exact hlen
    · have hic' : st.inCode = false := Bool.eq_false_iff.mpr hic
      cases hm : headingMatch l with
      | none =>
        rw [numStep_nomatch st l hfence' hic' hm]
        exact hlen
      | some triple =>
        obtain ⟨level, space, content⟩ := triple
        by_cases hl1 : level = 1
        · rw [numStep_lvl1 st l level space content hfence' hic' hm hl1]
          rfl
        · by_cases hrange : 2 ≤ level ∧ level ≤ 6
          · rw [numStep_heading st l level space content hfence' hic' hm hl1 hrange]
            show (incCounters (resetCounters st.counters level) level).length = 5
            rw [incCounters_length,
              resetCounters_length st.counters level hlen (by omega)]
          · rw [numStep_overlong st l level space content hfence' hic' hm hl1 hrange]
            exact hlen

lemma numStep_ne_nil (st : NumState) (l : List Char) (hne : l ≠ []) :
    (numStep st l).1 ≠ [] := by
  by_cases hfence : "```".data.isPrefixOf (strip l) = true
  · rw [numStep_fence st l hfence]
    exact hne
  · have hfence' : "```".data.isPrefixOf (strip l) = false :=
      Bool.eq_false_iff.mpr hfence
    by_cases hic : st.inCode = true
    · rw [numStep_inCode st l hfence' hic]
      exact hne
    · have hic' : st.inCode = false := Bool.eq_false_iff.mpr hic
      cases hm : headingMatch l with
      | none =>
        rw [numStep_nomatch st l hfence' hic' hm]
        exact hne
      | some triple =>
        obtain ⟨level, space, content⟩ := triple
        by_cases hl1 : level = 1
        · rw [numStep_lvl1 st l level space content hfence' hic' hm hl1]
          exact hne
        · by_cases hrange : 2 ≤ level ∧ level ≤ 6
          · rw [numStep_heading st l level space content hfence' hic' hm hl1 hrange]
            have hrep : List.replicate level '#' ≠ [] := by
              simp only [ne_eq, List.replicate_eq_nil_iff]
              omega
            simp [hrep]
          · rw [numStep_overlong st l level space content hfence' hic' hm hl1 hrange]
            exact hne

lemma strip_sublist (l : List Char) : List.Sublist (strip l) l := by
  unfold strip
  exact ((List.rdropWhile_prefix isWs (l.dropWhile isWs)).sublist).trans
    ((List.dropWhile_suffix isWs).sublist)

lemma consumeNumDots_suffix (fuel : Nat) : ∀ l : List Char,
    List.IsSuffix (consumeNumDots fuel l) l := by
  induction fuel with
  | zero => intro l; exact List.suffix_refl l
  | succ f ih =>
    intro l
    unfold consumeNumDots
    split
    · rename_i x1 x2 rest heq1 heq2
      refine (ih rest).trans ?_
      have h2 : List.IsSuffix (l.dropWhile isDigit) l := List.dropWhile_suffix isDigit
      rw [heq2] at h2
      exact (List.suffix_cons '.' rest).trans h2
    · exact List.suffix_refl l

lemma cleanContent_cases (x : List Char) :
    cleanContent x = strip x ∨ ∃ rest, (strip x).dropWhile isDigit = '.' :: rest ∧
      cleanContent x = (consumeNumDots rest.length rest).dropWhile isWs := by
  unfold cleanContent
  show (match (strip x).takeWhile isDigit, (strip x).dropWhile isDigit with
    | _ :: _, '.' :: rest => (consumeNumDots rest.length rest).dropWhile isWs
    | _, _ => strip x) = strip x ∨ _
  split
  · rename_i x1 x2 rest heq1 heq2
    right
    refine ⟨rest, heq2, ?_⟩
    show (match (strip x).takeWhile isDigit, (strip x).dropWhile isDigit with
      | _ :: _, '.' :: r => (consumeNumDots r.length r).dropWhile isWs
      | _, _ => strip x) = _
    rw [heq1, heq2]
    rfl
  · left
    rfl

lemma cleanContent_mem (x : List Char) : ∀ c ∈ cleanContent x, c ∈ x := by
  intro c hc
  rcases cleanContent_cases x with hcc | ⟨rest, hrest, hcc⟩
  · rw [hcc] at hc
    exact (strip_sublist x).mem hc
  · rw [hcc] at hc
    have h1 := (List.dropWhile_suffix isWs).sublist.mem hc
    have h2 := (consumeNumDots_suffix rest.length rest).sublist.mem h1
    have h3 : c ∈ (strip x).dropWhile isDigit := by
      rw [hrest]
      exact List.mem_cons_of_mem _ h2
    exact (strip_sublist x).mem ((List.dropWhile_suffix isDigit).sublist.mem h3)

lemma headingMatch_groups (l : List Char) (level : Nat) (space content : List Char)
    (hm : headingMatch l = some (level, space, content)) :
    (∀ c ∈ space, c ∈ l) ∧ (∀ c ∈ content, c ∈ l) := by
  unfold headingMatch at hm
  cases htk : l.takeWhile (fun c => decide (c = '#')) with
  | nil => rw [htk] at hm; simp at hm
  | cons a t =>
    rw [htk] at hm
    simp only [Option.some.injEq, Prod.mk.injEq] at hm
    constructor
    · intro c hc
      rw [← hm.2.1] at hc
      exact (List.dropWhile_suffix _).sublist.mem ((List.takeWhile_sublist _).mem hc)
    · intro c hc
      rw [← hm.2.2] at hc
      exact (List.dropWhile_suffix _).sublist.mem
        ((List.dropWhile_suffix _).sublist.mem hc)

lemma joinDots_mem (ps : List (List Char)) (c : Char) (hc : c ∈ joinDots ps) :
    (∃ b ∈ ps, c ∈ b) ∨ c = '.' := by
  induction ps with
  | nil => simp [joinDots] at hc
  | cons p qs ih =>
    cases qs with
    | nil =>
      simp only [joinDots] at hc
      exact Or.inl ⟨p, by simp, hc⟩
    | cons q qs2 =>
      simp only [joinDots, List.mem_append, List.mem_cons] at hc
      rcases hc with hc | hc | hc
      · exact Or.inl ⟨p, by simp, hc⟩
      · exact Or.inr hc
      · rcases ih hc with ⟨b, hb, hcb⟩ | rfl
        · exact Or.inl ⟨b, by simp [hb], hcb⟩
        · exact Or.inr rfl

lemma numStep_breakfree (st : NumState) (l : List Char)
    (hbf : ∀ c ∈ l, isLineBreak c = false) :
    ∀ c ∈ (numStep st l).1, isLineBreak c = false := by
  by_cases hfence : "```".data.isPrefixOf (strip l) = true
  · rw [numStep_fence st l hfence]
    exact hbf
  · have hfence' : "```".data.isPrefixOf (strip l) = false :=
      Bool.eq_false_iff.mpr hfence
    by_cases hic : st.inCode = true
    · rw [numStep_inCode st l hfence' hic]
      exact hbf
    · have hic' : st.inCode = false := Bool.eq_false_iff.mpr hic
      cases hm : headingMatch l with
      | none =>
        rw [numStep_nomatch st l hfence' hic' hm]
        exact hbf
      | some triple =>
        obtain ⟨level, space, content⟩ := triple
        by_cases hl1 : level = 1
        · rw [numStep_lvl1 st l level space content hfence' hic' hm hl1]
          exact hbf
        · by_cases hrange : 2 ≤ level ∧ level ≤ 6
          · rw [numStep_heading st l level space content hfence' hic' hm hl1 hrange]
            intro c hc
            have hgr := headingMatch_groups l level space content hm
            simp only [List.mem_append, List.mem_cons] at hc
            have hdis : c ∈ List.replicate level '#' ∨ c ∈ space ∨
                c ∈ joinDots (numParts (incCounters (resetCounters st.counters level)
                  level) level) ∨ c = '.' ∨ c = ' ' ∨
                c ∈ strip (cleanContent content) := by
              rcases hc with ((hc | hc) | hc) | hc | hc
              · exact Or.inl hc
              · exact Or.inr (Or.inl hc)
              · rw [show numberString (incCounters (resetCounters st.counters level)
                    level) level = joinDots (numParts (incCounters
                    (resetCounters st.counters level) level) level) ++ ['.']
                  from rfl] at hc
                rcases List.mem_append.mp hc with hc | hc
                · exact Or.inr (Or.inr (Or.inl hc))
                · simp only [List.mem_singleton] at hc
                  exact Or.inr (Or.inr (Or.inr (Or.inl hc)))
              · exact Or.inr (Or.inr (Or.inr (Or.inr (Or.inl hc))))
              · exact Or.inr (Or.inr (Or.inr (Or.inr (Or.inr hc))))
            rcases hdis with hc2 | hc2 | hc2 | rfl | rfl | hc2
            · rw [List.eq_of_mem_replicate hc2]
              rfl
            · exact hbf c (hgr.1 c hc2)
            · rcases joinDots_mem _ c hc2 with ⟨b, hb, hcb⟩ | rfl
              · obtain ⟨n, -, rfl⟩ := List.mem_map.mp hb
                exact isDigit_not_break c (natToChars_digits n c hcb)
              · rfl
            · rfl
            · rfl
            · have h1 := (strip_sublist _).mem hc2
              exact hbf c (hgr.2 c (cleanContent_mem content c h1))
          · rw [numStep_overlong st l level space content hfence' hic' hm hl1 hrange]
            exact hbf

lemma splitlinesAux_mem_breakfree : ∀ (cs : List Char) (skipNl : Bool) (acc : List Char),
    (∀ c ∈ acc, isLineBreak c = false) →
    ∀ l ∈ splitlinesAux skipNl acc cs, ∀ c ∈ l, isLineBreak c = false := by
  intro cs
  induction cs with
  | nil =>
    intro skipNl acc hacc l hl c hc
    simp only [splitlinesAux, List.mem_singleton] at hl
    subst hl
    exact hacc c (List.mem_reverse.mp hc)
  | cons d ds ih =>
    intro skipNl acc hacc l hl c hc
    unfold splitlinesAux at hl
    by_cases h1 : skipNl = true ∧ d = '\n'
    · rw [if_pos h1] at hl
      exact ih false acc hacc l hl c hc
    · rw [if_neg h1] at hl
      by_cases h2 : isLineBreak d = true
      · rw [if_pos h2] at hl
        rcases List.mem_cons.mp hl with rfl | hl2
        · exact hacc c (List.mem_reverse.mp hc)
        · exact ih _ [] (by simp) l hl2 c hc
      · rw [if_neg h2] at hl
        refine ih false (d :: acc) ?_ l hl c hc
        intro e he
        rcases List.mem_cons.mp he with rfl | he2
        · exact Bool.eq_false_iff.mpr h2
        · exact hacc e he2

lemma splitlines_mem (l : List Char) : ∀ m ∈ splitlines l, m ∈ splitlinesAux false [] l := by
  intro m hm
  cases l with
  | nil => simp [splitlines] at hm
  | cons a t =>
    have hred : splitlines (a :: t) = (match (a :: t).getLast? with
      | some c => if isLineBreak c then (splitlinesAux false [] (a :: t)).dropLast
          else splitlinesAux false [] (a :: t)
      | none => splitlinesAux false [] (a :: t)) := rfl
    rw [hred] at hm
    cases hg : (a :: t).getLast? with
    | none =>
      rw [hg] at hm
      exact hm
    | some c =>
      rw [hg] at hm
      have hm2 : m ∈ (if isLineBreak c = true then (splitlinesAux false [] (a :: t)).dropLast
          else splitlinesAux false [] (a :: t)) := hm
      by_cases hb : isLineBreak c = true
      · rw [if_pos hb] at hm2
        exact (List.dropLast_prefix _).sublist.mem hm2
      · rw [if_neg hb] at hm2
        exact hm2

lemma splitlines_breakfree (md : List Char) :
    ∀ l ∈ splitlines md, ∀ c ∈ l, isLineBreak c = false :=
  fun l hl => splitlinesAux_mem_breakfree md false [] (by simp) l (splitlines_mem md l hl)

lemma splitlinesAux_breakfree_append (l : List Char) : ∀ (acc rest : List Char),
    (∀ c ∈ l, isLineBreak c = false) →
    splitlinesAux false acc (l ++ rest) = splitlinesAux false (l.reverse ++ acc) rest := by
  induction l with
  | nil =>
    intro acc rest h
    simp
  | cons c cs ih =>
    intro acc rest h
    have hc := h c (by simp)
    have hstep : splitlinesAux false acc (c :: (cs ++ rest))
        = splitlinesAux false (c :: acc) (cs ++ rest) := by
      simp [splitlinesAux, hc]
    rw [List.cons_append, hstep, ih (c :: acc) rest (fun d hd => h d (by simp [hd]))]
    simp

lemma splitlinesAux_joinNl : ∀ L : List (List Char), L ≠ [] →
    (∀ l ∈ L, ∀ c ∈ l, isLineBreak c = false) →
    splitlinesAux false [] (joinNl L) = L := by
  intro L
  induction L with
  | nil => intro h; exact absurd rfl h
  | cons x ls ih =>
    intro _ hbf
    cases ls with
    | nil =>
      show splitlinesAux false [] (joinNl [x]) = [x]
      have hx : joinNl [x] = x := rfl
      rw [hx, splitlinesAux_breakfree x [] (hbf x (by simp))]
      simp
    | cons y ys =>
      have hj : joinNl (x :: y :: ys) = x ++ '\n' :: joinNl (y :: ys) := rfl
      rw [hj, splitlinesAux_breakfree_append x [] ('\n' :: joinNl (y :: ys)) (hbf x (by simp))]
      have hstep : splitlinesAux false (x.reverse ++ []) ('\n' :: joinNl (y :: ys))
          = (x.reverse ++ []).reverse :: splitlinesAux false [] (joinNl (y :: ys)) := by
        simp +decide [splitlinesAux]
      rw [hstep, ih (by simp) (fun l hl => hbf l (by simp [hl]))]
      simp

lemma joinNl_last_not_break : ∀ (L : List (List Char)), L ≠ [] → L.getLast? ≠ some [] →
    (∀ l ∈ L, ∀ c ∈ l, isLineBreak c = false) →
    ∃ c, (joinNl L).getLast? = some c ∧ isLineBreak c = false := by
  intro L
  induction L with
  | nil => intro h; exact absurd rfl h
  | cons x ls ih =>
    intro _ hlast hbf
    cases ls with
    | nil =>
      have hx : x ≠ [] := by
        intro hx
        rw [hx] at hlast
        exact hlast (by simp)
      refine ⟨x.getLast hx, ?_, hbf x (by simp) _ (List.getLast_mem hx)⟩
      show x.getLast? = some (x.getLast hx)
      exact List.getLast?_eq_getLast x hx
    | cons y ys =>
      have h1 : (y :: ys).getLast? ≠ some [] := by
        rwa [List.getLast?_cons_cons] at hlast
      obtain ⟨c, hc, hbc⟩ := ih (by simp) h1 (fun l hl => hbf l (by simp [hl]))
      refine ⟨c, ?_, hbc⟩
      show (x ++ '\n' :: joinNl (y :: ys)).getLast? = some c
      rw [List.getLast?_append_of_ne_nil _ (by simp)]
      have hjne : joinNl (y :: ys) ≠ [] := by
        intro hjn
        rw [hjn] at hc
        simp at hc
      obtain ⟨j0, jt, hjj⟩ := List.exists_cons_of_ne_nil hjne
      rw [hjj, List.getLast?_cons_cons, ← hjj]
      exact hc

lemma splitlines_joinNl (L : List (List Char)) (hlast : L.getLast? ≠ some [])
    (hbf : ∀ l ∈ L, ∀ c ∈ l, isLineBreak c = false) :
    splitlines (joinNl L) = L := by
  cases L with
  | nil => rfl
  | cons x ls =>
    obtain ⟨c, hc, hbc⟩ := joinNl_last_not_break (x :: ls) (by simp) hlast hbf
    have hjne : joinNl (x :: ls) ≠ [] := by
      intro hj
      rw [hj] at hc
      simp at hc
    obtain ⟨j0, jt, hj⟩ := List.exists_cons_of_ne_nil hjne
    have heq : splitlines (joinNl (x :: ls)) = splitlinesAux false [] (joinNl (x :: ls)) := by
      rw [hj]
      show (match (j0 :: jt).getLast? with
        | some d => if isLineBreak d then (splitlinesAux false [] (j0 :: jt)).dropLast
            else splitlinesAux false [] (j0 :: jt)
        | none => splitlinesAux false [] (j0 :: jt)) = _
      have hc2 : (j0 :: jt).getLast? = some c := by
        rw [← hj]
        exact hc
      rw [hc2]
      show (if isLineBreak c = true then (splitlinesAux false [] (j0 :: jt)).dropLast
          else splitlinesAux false [] (j0 :: jt)) = _
      rw [if_neg (by simp [hbc])]
    rw [heq]
    exact splitlinesAux_joinNl (x :: ls) (by simp) hbf

lemma mapState_cons (f : NumState → List Char → List Char × NumState)
    (st : NumState) (l : List Char) (ls : List (List Char)) :
    mapState f st (l :: ls)
      = ((f st l).1 :: (mapState f (f st l).2 ls).1, (mapState f (f st l).2 ls).2) := rfl

lemma mapState_stable : ∀ (L : List (List Char)) (st : NumState), st.counters.length = 5 →
    mapState numStep st ((mapState numStep st L).1) = mapState numStep st L := by
  intro L
  induction L with
  | nil => intro st h; rfl
  | cons l ls ih =>
    intro st hlen
    calc mapState numStep st ((mapState numStep st (l :: ls)).1)
        = ((numStep st ((numStep st l).1)).1 ::
            (mapState numStep (numStep st ((numStep st l).1)).2
              ((mapState numStep (numStep st l).2 ls).1)).1,
          (mapState numStep (numStep st ((numStep st l).1)).2
            ((mapState numStep (numStep st l).2 ls).1)).2) := rfl
      _ = mapState numStep st (l :: ls) := by
          rw [numStep_stable st l hlen,
            ih ((numStep st l).2) (numStep_counters_len st l hlen)]
          exact (mapState_cons numStep st l ls).symm

lemma mapState_breakfree : ∀ (L : List (List Char)) (st : NumState),
    (∀ l ∈ L, ∀ c ∈ l, isLineBreak c = false) →
    ∀ l ∈ (mapState numStep st L).1, ∀ c ∈ l, isLineBreak c = false := by
  intro L
  induction L with
  | nil =>
    intro st h l hl
    simp [mapState] at hl
  | cons x ls ih =>
    intro st h l hl
    rw [mapState_cons] at hl
    rcases List.mem_cons.mp hl with rfl | hl2
    · exact numStep_breakfree st x (h x (by simp))
    · exact ih (numStep st x).2 (fun m hm => h m (by simp [hm])) l hl2

lemma mapState_last_ne_nil : ∀ (L : List (List Char)) (st : NumState),
    L.getLast? ≠ some [] → (mapState numStep st L).1.getLast? ≠ some [] := by
  intro L
  induction L with
  | nil =>
    intro st h
    exact h
  | cons x ls ih =>
    intro st h
    cases ls with
    | nil =>
      have hx : x ≠ [] := by
        intro hx
        rw [hx] at h
        exact h (by simp)
      rw [mapState_cons]
      have e : (mapState numStep (numStep st x).2 ([] : List (List Char))).1 = [] := rfl
      rw [e]
      intro hcontra
      simp only [List.getLast?_singleton, Option.some.injEq] at hcontra
      exact numStep_ne_nil st x hx hcontra
    | cons y ys =>
      have h2 : (y :: ys).getLast? ≠ some [] := by
        rwa [List.getLast?_cons_cons] at h
      have ihh := ih (numStep st x).2 h2
      rw [mapState_cons]
      show ((numStep st x).1 :: (mapState numStep (numStep st x).2 (y :: ys)).1).getLast?
          ≠ some []
      rw [mapState_cons] at ihh ⊢
      rw [List.getLast?_cons_cons]
      exact ihh

/-- C9 (corrected): the heading numbering stage is idempotent on every input
whose line split does not end in an empty line (in particular on every input
without a trailing line terminator); the `\n`-rejoin otherwise drops the
trailing empty line, so a second run sees a shorter document. -/
theorem C9_numbering_idempotent (md : List Char)
    (hlast : (splitlines md).getLast? ≠ some []) :
    number_headings (number_headings md) = number_headings md := by
  unfold number_headings
  have hbfL : ∀ l ∈ splitlines md, ∀ c ∈ l, isLineBreak c = false :=
    splitlines_breakfree md
  have hbf2 : ∀ l ∈ (mapState numStep ⟨[0, 0, 0, 0, 0], false⟩ (splitlines md)).1,
      ∀ c ∈ l, isLineBreak c = false :=
    mapState_breakfree (splitlines md) ⟨[0, 0, 0, 0, 0], false⟩ hbfL
  have hlast2 : (mapState numStep ⟨[0, 0, 0, 0, 0], false⟩ (splitlines md)).1.getLast?
      ≠ some [] :=
    mapState_last_ne_nil (splitlines md) ⟨[0, 0, 0, 0, 0], false⟩ hlast
  rw [splitlines_joinNl _ hlast2 hbf2,
    mapState_stable (splitlines md) ⟨[0, 0, 0, 0, 0], false⟩ rfl]

theorem C9_witness :
    (splitlines "# A\n## B\n### C".data).getLast? ≠ some ([] : List Char) ∧
    number_headings (number_headings "# A\n## B\n### C".data)
      = number_headings "# A\n## B\n### C".data :=
  ⟨by decide, C9_numbering_idempotent "# A\n## B\n### C".data (by decide)⟩


end MarkTidy
